import Mathlib

/-!
# Console driver of the SAM software package (drivers/serial/console.c)

Shallow embedding of the console abstraction layer.  The serial backend
(USART, UART or DBGU driver), the power-management controller, the interrupt
controller and `printf` are external collaborators: every call to one of them
is recorded, with its arguments, in a trace.  The bytes that the backend's
`get_char` will deliver are a scripted input stream; when the stream is
exhausted the backend spins forever, which is the outcome `blocked`.

Machine integers: `uint8_t` is `Fin 256`, `uint32_t` is `Nat` with an explicit
reduction modulo `2 ^ 32` wherever the C arithmetic can wrap, pointers are
`Nat` with `0` for `NULL`.
-/

namespace Softpack

/-- A `uint8_t`. -/
abbrev Byte := Fin 256

/-- The serial peripheral family compiled in: exactly one of
`CONFIG_HAVE_CONSOLE_USART`, `CONFIG_HAVE_CONSOLE_UART`,
`CONFIG_HAVE_CONSOLE_DBGU` is defined in a build. -/
inductive Family where
  | usart
  | uart
  | dbgu
deriving DecidableEq

/-- Constants and helpers of `chip.h` and of the serial driver headers, which
are not part of the sources under study and are taken as parameters. -/
structure Chip where
  ID_PERIPH_COUNT : Nat
  ID_DBGU : Nat
  DBGU : Nat
  get_usart_id_from_addr : Nat → Nat
  get_uart_id_from_addr : Nat → Nat
  US_MR_CHMODE_NORMAL : Nat
  US_MR_PAR_NO : Nat
  US_MR_CHRL_8_BIT : Nat
  US_IER_RXRDY : Nat
  UART_MR_CHMODE_NORMAL : Nat
  UART_MR_PAR_NO : Nat
  UART_IER_RXRDY : Nat
  DBGU_MR_CHMODE_NORM : Nat
  DBGU_MR_PAR_NONE : Nat
  DBGU_IER_RXRDY : Nat

/-- The constant fields of `struct _console`; its seven function pointers are
the seven backend entry points of `Event`. -/
structure ConsoleDesc where
  mode : Nat
  rx_int_mask : Nat
deriving DecidableEq

/-- The `static const struct _console console` of the selected family. -/
def console (chip : Chip) : Family → ConsoleDesc
  | .usart =>
    { mode := chip.US_MR_CHMODE_NORMAL ||| chip.US_MR_PAR_NO ||| chip.US_MR_CHRL_8_BIT
      rx_int_mask := chip.US_IER_RXRDY }
  | .uart =>
    { mode := chip.UART_MR_CHMODE_NORMAL ||| chip.UART_MR_PAR_NO
      rx_int_mask := chip.UART_IER_RXRDY }
  | .dbgu =>
    { mode := chip.DBGU_MR_CHMODE_NORM ||| chip.DBGU_MR_PAR_NONE
      rx_int_mask := chip.DBGU_IER_RXRDY }

/-- A call that leaves the console module.  The first seven constructors are
the backend entry points of `struct _console`. -/
inductive Event where
  | init (addr mode baudrate : Nat)
  | put_char (addr : Nat) (c : Byte)
  | tx_empty (addr : Nat)
  | get_char (addr : Nat)
  | rx_ready (addr : Nat)
  | enable_it (addr mask : Nat)
  | disable_it (addr mask : Nat)
  | pmc_configure_peripheral (id : Nat) (enable : Bool)
  | irq_add_handler (id : Nat)
  | irq_enable (id : Nat)
  | irq_disable (id : Nat)
  | irq_remove_handler (id : Nat)
  | rx_handler (handler : Nat) (c : Byte)
  | printf (fmt : String) (args : List Nat)
deriving DecidableEq

/-- Whether an event is a call of one of the seven backend entry points. -/
def Event.isBackend : Event → Bool
  | .init _ _ _ => true
  | .put_char _ _ => true
  | .tx_empty _ => true
  | .get_char _ => true
  | .rx_ready _ => true
  | .enable_it _ _ => true
  | .disable_it _ _ => true
  | _ => false

/-- The four file-scope variables of console.c, the scripted backend (the
pending input bytes and the two status flags it reports) and the trace of
external calls made so far. -/
structure World where
  console_id : Nat
  console_addr : Nat
  console_initialized : Bool
  console_rx_handler : Nat
  rx : List Byte
  hw_tx_empty : Bool
  hw_rx_ready : Bool
  trace : List Event
deriving DecidableEq

/-- The state at program start: the static initialisers of console.c, an
arbitrary backend and an empty trace. -/
def World.boot (rx : List Byte) (txe rxr : Bool) : World :=
  { console_id := 0
    console_addr := 0
    console_initialized := false
    console_rx_handler := 0
    rx := rx
    hw_tx_empty := txe
    hw_rx_ready := rxr
    trace := [] }

/-- How a call ends: it returns a value, it stops in a failed `assert`
(followed by `while(1)`), or it spins in the backend waiting for a byte that
never comes. -/
inductive Outcome (α : Type) where
  | ret (a : α)
  | fatal
  | blocked
deriving DecidableEq

/-- Records one external call. -/
def World.emit (w : World) (e : Event) : World :=
  { w with trace := w.trace ++ [e] }

/-- The identity resolution at the head of `console_configure`
(lines 164 to 175). -/
def resolve_id (chip : Chip) (fam : Family) (addr : Nat) : Nat :=
  match fam with
  | .usart => chip.get_usart_id_from_addr addr
  | .uart => chip.get_uart_id_from_addr addr
  | .dbgu => if addr = chip.DBGU then chip.ID_DBGU else chip.ID_PERIPH_COUNT

/-- The function `console_configure` (assertions enabled). -/
def console_configure (chip : Chip) (fam : Family) (w : World)
    (addr baudrate : Nat) : Outcome Unit × World :=
  let id := resolve_id chip fam addr
  if id = chip.ID_PERIPH_COUNT then (.fatal, w)
  else
    let w1 := { w with console_id := id, console_addr := addr }
    let w2 := w1.emit (.pmc_configure_peripheral id true)
    let w3 := w2.emit (.init w2.console_addr (console chip fam).mode baudrate)
    (.ret (), { w3 with console_initialized := true })

/-- The function `console_put_char`. -/
def console_put_char (w : World) (c : Byte) : World :=
  if !w.console_initialized then w
  else w.emit (.put_char w.console_addr c)

/-- The function `console_is_tx_empty`. -/
def console_is_tx_empty (w : World) : Bool × World :=
  if !w.console_initialized then (true, w)
  else (w.hw_tx_empty, w.emit (.tx_empty w.console_addr))

/-- The function `console_get_char`. -/
def console_get_char (w : World) : Outcome Byte × World :=
  if !w.console_initialized then (.fatal, w)
  else
    match w.rx with
    | [] => (.blocked, w.emit (.get_char w.console_addr))
    | b :: rest => (.ret b, { w.emit (.get_char w.console_addr) with rx := rest })

/-- The function `console_is_rx_ready`. -/
def console_is_rx_ready (w : World) : Bool × World :=
  if !w.console_initialized then (false, w)
  else (w.hw_rx_ready, w.emit (.rx_ready w.console_addr))

/-- The function `console_set_rx_handler`. -/
def console_set_rx_handler (w : World) (handler : Nat) : World :=
  { w with console_rx_handler := handler }

/-- The function `console_enable_rx_interrupt`. -/
def console_enable_rx_interrupt (chip : Chip) (fam : Family) (w : World) : World :=
  let w1 := w.emit (.irq_add_handler w.console_id)
  let w2 := w1.emit (.irq_enable w1.console_id)
  w2.emit (.enable_it w2.console_addr (console chip fam).rx_int_mask)

/-- The function `console_disable_rx_interrupt`. -/
def console_disable_rx_interrupt (chip : Chip) (fam : Family) (w : World) : World :=
  let w1 := w.emit (.disable_it w.console_addr (console chip fam).rx_int_mask)
  let w2 := w1.emit (.irq_disable w1.console_id)
  w2.emit (.irq_remove_handler w2.console_id)

/-- The static function `console_handler`, the interrupt dispatch routine. -/
def console_handler (w : World) : Outcome Unit × World :=
  match console_is_rx_ready w with
  | (false, w1) => (.ret (), w1)
  | (true, w1) =>
    match console_get_char w1 with
    | (.ret c, w2) =>
      if w2.console_rx_handler ≠ 0 then
        (.ret (), w2.emit (.rx_handler w2.console_rx_handler c))
      else (.ret (), w2)
    | (.fatal, w2) => (.fatal, w2)
    | (.blocked, w2) => (.blocked, w2)

/-- What a parsing helper leaves behind: how it ended, the world, and the
content of the cell its `pvalue` argument points to. -/
structure ParseRes where
  out : Outcome Nat
  world : World
  pvalue : Nat
deriving DecidableEq

/-- A call of `printf`. -/
def World.printf (w : World) (fmt : String) (args : List Nat) : World :=
  w.emit (.printf fmt args)

/-- The test `key >= '0' && key <= '9'`. -/
def is_digit (key : Byte) : Prop := 48 ≤ key.val ∧ key.val ≤ 57

instance (key : Byte) : Decidable (is_digit key) := by
  unfold is_digit; infer_instance

/-- The body of the `while (1)` loop of `console_get_integer`, run at most
`fuel` times; `none` when the fuel is used up.  The counter `nb` is a
`uint8_t`, the accumulator `value` a `uint32_t`. -/
def get_integer_loop : Nat → World → Nat → Nat → Nat → Option ParseRes
  | 0, _, _, _, _ => none
  | fuel + 1, w, pvalue, nb, value =>
    match console_get_char w with
    | (.fatal, w1) => some ⟨.fatal, w1, pvalue⟩
    | (.blocked, w1) => some ⟨.blocked, w1, pvalue⟩
    | (.ret key, w1) =>
      let w2 := console_put_char w1 key
      if is_digit key then
        get_integer_loop fuel w2 pvalue ((nb + 1) % 256)
          ((value * 10 + (key.val - 48)) % 2 ^ 32)
      else if key.val = 13 ∨ key.val = 32 then
        if nb = 0 then
          some ⟨.ret 0,
            w2.printf "\n\rWrite a number and press ENTER or SPACE!\n\r" [], pvalue⟩
        else
          some ⟨.ret 1, w2.printf "\n\r" [], value⟩
      else
        some ⟨.ret 0, w2.printf "\n\r\x27%c\x27 not a number!\n\r" [key.val], pvalue⟩

/-- The function `console_get_integer`; `pvalue` is the prior content of the
output cell.  Every turn of the loop that does not end the call consumes one
pending byte, so one turn more than there are pending bytes is enough (see
`get_integer_loop_shape`). -/
def console_get_integer (w : World) (pvalue : Nat) : ParseRes :=
  (get_integer_loop (w.rx.length + 1) w pvalue 0 0).getD ⟨.blocked, w, pvalue⟩

/-- The function `console_get_integer_min_max`. -/
def console_get_integer_min_max (w : World) (pvalue min max : Nat) : ParseRes :=
  let r := console_get_integer w 0
  match r.out with
  | .fatal => ⟨.fatal, r.world, pvalue⟩
  | .blocked => ⟨.blocked, r.world, pvalue⟩
  | .ret code =>
    if code = 0 then ⟨.ret 0, r.world, pvalue⟩
    else
      let value := r.pvalue
      if value < min ∨ value > max then
        ⟨.ret 0,
          r.world.printf "\n\rThe number have to be between %u and %u\n\r" [min, max],
          pvalue⟩
      else
        ⟨.ret 1, r.world.printf "\n\r" [], value⟩

/-- The test for an upper-case hexadecimal letter, `key >= 'A' && key <= 'F'`. -/
def is_upper_hexa (key : Byte) : Prop := 65 ≤ key.val ∧ key.val ≤ 70

/-- The test for a lower-case hexadecimal letter, `key >= 'a' && key <= 'f'`. -/
def is_lower_hexa (key : Byte) : Prop := 97 ≤ key.val ∧ key.val ≤ 102

instance (key : Byte) : Decidable (is_upper_hexa key) := by
  unfold is_upper_hexa; infer_instance

instance (key : Byte) : Decidable (is_lower_hexa key) := by
  unfold is_lower_hexa; infer_instance

/-- The `for (dw = 0; dw < 8; dw++)` loop of `console_get_hexa_32` with
`n = 8 - dw` turns left, followed by the code after the loop. -/
def get_hexa_32_loop : Nat → World → Nat → Nat → ParseRes
  | 0, w, _, value => ⟨.ret 1, w.printf "\n\r" [], value⟩
  | n + 1, w, pvalue, value =>
    match console_get_char w with
    | (.fatal, w1) => ⟨.fatal, w1, pvalue⟩
    | (.blocked, w1) => ⟨.blocked, w1, pvalue⟩
    | (.ret key, w1) =>
      let w2 := console_put_char w1 key
      if is_digit key then
        get_hexa_32_loop n w2 pvalue ((value * 16 + (key.val - 48)) % 2 ^ 32)
      else if is_upper_hexa key then
        get_hexa_32_loop n w2 pvalue ((value * 16 + (key.val - 65 + 10)) % 2 ^ 32)
      else if is_lower_hexa key then
        get_hexa_32_loop n w2 pvalue ((value * 16 + (key.val - 97 + 10)) % 2 ^ 32)
      else
        ⟨.ret 0, w2.printf "\n\rIt is not a hexa character!\n\r" [], pvalue⟩

/-- The function `console_get_hexa_32`; `pvalue` is the prior content of the
output cell. -/
def console_get_hexa_32 (w : World) (pvalue : Nat) : ParseRes :=
  get_hexa_32_loop 8 w pvalue 0

/-- An illustrative set of header constants, used to run the definitions on
concrete inputs: fifty peripheral identities, two USART, one UART and the
debug unit. -/
def sample_chip : Chip :=
  { ID_PERIPH_COUNT := 50
    ID_DBGU := 2
    DBGU := 0xFFFFEE00
    get_usart_id_from_addr := fun a =>
      if a = 0xF001C000 then 12 else if a = 0xF0020000 then 13 else 50
    get_uart_id_from_addr := fun a => if a = 0xF0024000 then 15 else 50
    US_MR_CHMODE_NORMAL := 0
    US_MR_PAR_NO := 0x800
    US_MR_CHRL_8_BIT := 0xC0
    US_IER_RXRDY := 1
    UART_MR_CHMODE_NORMAL := 0
    UART_MR_PAR_NO := 0x800
    UART_IER_RXRDY := 1
    DBGU_MR_CHMODE_NORM := 0
    DBGU_MR_PAR_NONE := 0x800
    DBGU_IER_RXRDY := 1 }

/-- A console already configured on the peripheral at address `addr` with
identity `id`, no receive callback, and `rx` as pending input. -/
def World.ready (id addr : Nat) (rx : List Byte) : World :=
  { console_id := id
    console_addr := addr
    console_initialized := true
    console_rx_handler := 0
    rx := rx
    hw_tx_empty := true
    hw_rx_ready := true
    trace := [] }

/-! ## Vocabulary for stating the properties of the parsing helpers -/

/-- The external calls made while reading and echoing the bytes `ds` one by
one on an initialized console: a backend `get_char` then a backend `put_char`
per byte. -/
def read_echo_trace (addr : Nat) : List Byte → List Event
  | [] => []
  | d :: ds => Event.get_char addr :: Event.put_char addr d :: read_echo_trace addr ds

/-- The world after the bytes `ds` have been read and echoed, `tail` being
what is still pending. -/
def World.after_echo (w : World) (ds tail : List Byte) : World :=
  { w with rx := tail, trace := w.trace ++ read_echo_trace w.console_addr ds }

/-- The accumulator of `console_get_integer` after the digit bytes `ds`,
starting from `value`: the 32-bit fold of `value = value * 10 + (key - '0')`. -/
def decimal_fold (value : Nat) (ds : List Byte) : Nat :=
  ds.foldl (fun v key => (v * 10 + (key.val - 48)) % 2 ^ 32) value

/-- The ASCII code of a decimal digit `d`. -/
def digit_char (d : Nat) : Byte := ⟨(48 + d) % 256, Nat.mod_lt _ (by decide)⟩

/-- The canonical decimal numeral of `v` as ASCII bytes, most significant
digit first: `"0"` for zero, otherwise the base-10 digits of `v` with no
leading zero. -/
def decimal_numeral (v : Nat) : List Byte :=
  if v = 0 then [48] else ((Nat.digits 10 v).reverse).map digit_char

/-- The test `is one of 0-9, A-F, a-f`. -/
def is_hexa (key : Byte) : Prop := is_digit key ∨ is_upper_hexa key ∨ is_lower_hexa key

instance (key : Byte) : Decidable (is_hexa key) := by
  unfold is_hexa; infer_instance

/-- The nibble that `console_get_hexa_32` adds for a hexadecimal character. -/
def hexa_value (key : Byte) : Nat :=
  if is_digit key then key.val - 48
  else if is_upper_hexa key then key.val - 65 + 10
  else key.val - 97 + 10

/-- The accumulator of `console_get_hexa_32` after the hexadecimal characters
`ds`, starting from `value`: the 32-bit fold of `value = value * 16 + nibble`. -/
def hexa_fold (value : Nat) (ds : List Byte) : Nat :=
  ds.foldl (fun v key => (v * 16 + hexa_value key) % 2 ^ 32) value

/-- The ASCII code of the nibble `n`, in upper case when `upper` is set. -/
def hexa_char (upper : Bool) (n : Nat) : Byte :=
  if n < 10 then ⟨(48 + n) % 256, Nat.mod_lt _ (by decide)⟩
  else if upper then ⟨(55 + n) % 256, Nat.mod_lt _ (by decide)⟩
  else ⟨(87 + n) % 256, Nat.mod_lt _ (by decide)⟩

/-- The 8-character zero-padded hexadecimal rendering of `v`, most significant
nibble first; `upper i` chooses the letter case at position `i`. -/
def hexa_numeral (v : Nat) (upper : Nat → Bool) : List Byte :=
  (List.range 8).map (fun i => hexa_char (upper i) (v / 16 ^ (7 - i) % 16))

/-! ## Echo, screen control and dumps -/

/-- The function `console_clear_screen`. -/
def console_clear_screen (w : World) : World :=
  w.printf "\x1b[2J\x1b[0;0f" []

/-- The function `console_reset_cursor`. -/
def console_reset_cursor (w : World) : World :=
  w.printf "\x1b[0;0f" []

/-- The function `console_echo`. -/
def console_echo (w : World) (c : Byte) : World :=
  if c.val = 13 ∨ c.val = 10 then w.printf "\r\n" []
  else if c.val = 0x7F then w.printf "\x1b[1D\x1b[K" []
  else if c.val = 8 then w.printf "\x1b[1D\x1b[K" []
  else console_put_char w c

/-- The loop of `console_dump_frame` with `n = size - i` turns left; `frame`
gives the byte at each offset from the pointer. -/
def dump_frame_loop (frame : Nat → Byte) : Nat → Nat → World → World
  | 0, _, w => w
  | n + 1, i, w => dump_frame_loop frame n (i + 1) (w.printf "%02x " [(frame i).val])

/-- The function `console_dump_frame`. -/
def console_dump_frame (w : World) (frame : Nat → Byte) (size : Nat) : World :=
  (dump_frame_loop frame size 0 w).printf "\n\r" []

/-- The loop `for (j = 0; j < 4; j++)` of a full line of `console_dump_memory`
with `n = 4 - j` turns left; `tmp` is the offset of the pointer `tmp` from
`buffer`. -/
def dump_clusters (buffer : Nat → Byte) : Nat → Nat → World → World
  | 0, _, w => w
  | n + 1, tmp, w =>
    dump_clusters buffer n (tmp + 4)
      (w.printf "%02X%02X%02X%02X "
        [(buffer tmp).val, (buffer (tmp + 1)).val, (buffer (tmp + 2)).val,
         (buffer (tmp + 3)).val])

/-- A loop of `console_dump_memory` that passes `n` consecutive bytes,
starting at offset `tmp`, to `console_put_char`. -/
def dump_raw (buffer : Nat → Byte) : Nat → Nat → World → World
  | 0, _, w => w
  | n + 1, tmp, w => dump_raw buffer n (tmp + 1) (console_put_char w (buffer tmp))

/-- The loop `for (i = 0; i < (size / 16); i++)` of `console_dump_memory` with
`n = size / 16 - i` turns left. -/
def dump_full_lines (buffer : Nat → Byte) (address : Nat) : Nat → Nat → World → World
  | 0, _, w => w
  | n + 1, i, w =>
    let w1 := w.printf "0x%08X: " [(address + i * 16) % 2 ^ 32]
    let w2 := dump_clusters buffer 4 (i * 16) w1
    let w3 := dump_raw buffer 16 (i * 16) w2
    dump_full_lines buffer address n (i + 1) (w3.printf "\n\r" [])

/-- The loop `for (j = last_line_start; j < last_line_start + 16; j++)` of
`console_dump_memory` with `n` turns left. -/
def dump_last_hex (buffer : Nat → Byte) (size last_line_start : Nat) :
    Nat → Nat → World → World
  | 0, _, w => w
  | n + 1, j, w =>
    let w1 := if j ≠ last_line_start ∧ j % 4 = 0 then w.printf " " [] else w
    let w2 := if j < size then w1.printf "%02X" [(buffer j).val] else w1.printf "  " []
    dump_last_hex buffer size last_line_start n (j + 1) w2

/-- The function `console_dump_memory`; `buffer` gives the byte at each offset
from the pointer, `size` and `address` are `uint32_t`.  The bound
`last_line_start + 16` of the hexadecimal loop is computed in 32 bits. -/
def console_dump_memory (w : World) (buffer : Nat → Byte) (size address : Nat) : World :=
  let w1 := dump_full_lines buffer address (size / 16) 0 w
  if size % 16 ≠ 0 then
    let last_line_start := size - size % 16
    let w2 := w1.printf "0x%08X: " [(address + last_line_start) % 2 ^ 32]
    let w3 := dump_last_hex buffer size last_line_start
      ((last_line_start + 16) % 2 ^ 32 - last_line_start) last_line_start w2
    let w4 := w3.printf " " []
    let w5 := dump_raw buffer (size - last_line_start) last_line_start w4
    w5.printf "\n\r" []
  else w1

/-! ## The text that reaches the terminal -/

/-- The ASCII code of an ordinary character of a format string. -/
def char_byte (c : Char) : Byte := ⟨c.toNat % 256, Nat.mod_lt _ (by decide)⟩

/-- The `width` low hexadecimal digits of `n`, most significant first. -/
def hex_fixed (upper : Bool) (width n : Nat) : List Byte :=
  (List.range width).map (fun i => hexa_char upper (n / 16 ^ (width - 1 - i) % 16))

/-- Modelled from the spec: the text produced by the C library function
`printf`, which is not part of the sources, for the conversion specifications
that console.c uses: `%02X` and `%02x` (two hexadecimal digits of an
`unsigned char`), `%08X` (eight hexadecimal digits of an `unsigned int`), `%c`
and `%u`; every other character stands for itself. -/
def printf_text : List Char → List Nat → List Byte
  | '%' :: '0' :: '2' :: 'X' :: fmt, a :: args => hex_fixed true 2 a ++ printf_text fmt args
  | '%' :: '0' :: '2' :: 'x' :: fmt, a :: args => hex_fixed false 2 a ++ printf_text fmt args
  | '%' :: '0' :: '8' :: 'X' :: fmt, a :: args => hex_fixed true 8 a ++ printf_text fmt args
  | '%' :: 'c' :: fmt, a :: args =>
    (⟨a % 256, Nat.mod_lt _ (by decide)⟩ : Byte) :: printf_text fmt args
  | '%' :: 'u' :: fmt, a :: args => decimal_numeral a ++ printf_text fmt args
  | c :: fmt, args => char_byte c :: printf_text fmt args
  | [], _ => []

/-- The bytes that one external call sends to the terminal. -/
def Event.output : Event → List Byte
  | .printf fmt args => printf_text fmt.toList args
  | .put_char _ c => [c]
  | _ => []

/-- Modelled from the spec: the output stream of a trace.  The standard output
is the console (the retargeting of `printf` to the console is not part of the
sources), so the stream is the text of the `printf` calls and the bytes of the
backend `put_char` calls, in call order. -/
def output : List Event → List Byte
  | [] => []
  | e :: es => e.output ++ output es

/-- The mathematical value of a string of decimal digit bytes. -/
def decimal_value (ds : List Byte) : Nat :=
  ds.foldl (fun v key => v * 10 + (key.val - 48)) 0

/-! ## PWM controller (drivers/peripherals/pwmc.c) -/

/-- A `uint16_t`. -/
abbrev Half := Fin 65536

/-- The registers of one entry of `PWM_CH_NUM` that the driver touches.  The
register block `Pwm` is declared in the chip headers, which are not part of
the sources. -/
structure PwmCh where
  PWM_CMR : Nat
  PWM_CDTY : Nat
  PWM_CDTYUPD : Nat
  PWM_CPRD : Nat
  PWM_CPRDUPD : Nat
deriving DecidableEq

/-- The registers of the `Pwm` block that the driver touches.  Each register is
a cell: a store replaces its content and a load returns it; `PWM_SR`, which
the driver only loads, holds the channel status bits. -/
structure Pwm where
  PWM_CLK : Nat
  PWM_ENA : Nat
  PWM_DIS : Nat
  PWM_SR : Nat
  PWM_IER1 : Nat
  PWM_IDR1 : Nat
  PWM_CH_NUM : List PwmCh
deriving DecidableEq

/-- The load of `pPwm->PWM_CH_NUM[channel]`; outside the array the C program
has no defined behaviour and the model reads zeros. -/
def Pwm.channel (p : Pwm) (channel : Nat) : PwmCh :=
  p.PWM_CH_NUM.getD channel ⟨0, 0, 0, 0, 0⟩

/-- The store of `c` to `pPwm->PWM_CH_NUM[channel]`. -/
def Pwm.set_channel (p : Pwm) (channel : Nat) (c : PwmCh) : Pwm :=
  { p with PWM_CH_NUM := p.PWM_CH_NUM.set channel c }

/-- The function `pwmc_configure_clocks`. -/
def pwmc_configure_clocks (p : Pwm) (mode : Nat) : Pwm :=
  { p with PWM_CLK := mode }

/-- The function `pwmc_enable_channel`. -/
def pwmc_enable_channel (p : Pwm) (channel : Byte) : Pwm :=
  { p with PWM_ENA := (1 <<< channel.val) % 2 ^ 32 }

/-- The function `pwmc_disable_channel`. -/
def pwmc_disable_channel (p : Pwm) (channel : Byte) : Pwm :=
  { p with PWM_DIS := (1 <<< channel.val) % 2 ^ 32 }

/-- The function `pwmc_enable_channel_it`. -/
def pwmc_enable_channel_it (p : Pwm) (channel : Byte) : Pwm :=
  { p with PWM_IER1 := (1 <<< channel.val) % 2 ^ 32 }

/-- The function `pwmc_disable_channel_it`. -/
def pwmc_disable_channel_it (p : Pwm) (channel : Byte) : Pwm :=
  { p with PWM_IDR1 := (1 <<< channel.val) % 2 ^ 32 }

/-- The function `pwmc_configure_channel`. -/
def pwmc_configure_channel (p : Pwm) (channel : Byte) (mode : Nat) : Pwm :=
  p.set_channel channel.val { p.channel channel.val with PWM_CMR := mode }

/-- The function `pwmc_set_period`. -/
def pwmc_set_period (p : Pwm) (channel : Byte) (period : Half) : Pwm :=
  if p.PWM_SR &&& (1 <<< channel.val) = 0 then
    p.set_channel channel.val { p.channel channel.val with PWM_CPRD := period.val }
  else
    p.set_channel channel.val { p.channel channel.val with PWM_CPRDUPD := period.val }

/-- The function `pwmc_set_duty_cycle` (assertions enabled). -/
def pwmc_set_duty_cycle (p : Pwm) (channel : Byte) (duty : Half) : Outcome Unit × Pwm :=
  if duty.val ≤ (p.channel channel.val).PWM_CPRD then
    if p.PWM_SR &&& (1 <<< channel.val) = 0 then
      (.ret (), p.set_channel channel.val { p.channel channel.val with PWM_CDTY := duty.val })
    else
      (.ret (),
        p.set_channel channel.val { p.channel channel.val with PWM_CDTYUPD := duty.val })
  else (.fatal, p)

/-- A PWM block with four channels, channel 1 enabled, used to run the
definitions on concrete inputs. -/
def sample_pwm : Pwm :=
  { PWM_CLK := 0
    PWM_ENA := 0
    PWM_DIS := 0
    PWM_SR := 2
    PWM_IER1 := 0
    PWM_IDR1 := 0
    PWM_CH_NUM := List.replicate 4 ⟨0, 0, 0, 1000, 0⟩ }

/-! ## Vocabulary for the layout of a memory dump -/

/-- The two upper-case hexadecimal digits of a byte. -/
def hex_byte (b : Byte) : List Byte := hex_fixed true 2 b.val

/-- The address prefix of a dump line: `0x`, eight upper-case hexadecimal
digits, a colon and a space. -/
def dump_address_prefix (a : Nat) : List Byte :=
  [48, 120] ++ hex_fixed true 8 a ++ [58, 32]

/-- A cluster of a full dump line: the hexadecimal digits of the four bytes at
offsets `off` to `off + 3`, then one space. -/
def dump_cluster (buffer : Nat → Byte) (off : Nat) : List Byte :=
  hex_byte (buffer off) ++ hex_byte (buffer (off + 1)) ++ hex_byte (buffer (off + 2)) ++
    hex_byte (buffer (off + 3)) ++ [32]

/-- The `k`-th full line of a dump, `k` counted from 0: the address prefix of
`address + 16 * k` modulo `2 ^ 32`, four clusters, the 16 raw bytes of block
`k`, and the line terminator `\n\r`. -/
def dump_full_line (buffer : Nat → Byte) (address k : Nat) : List Byte :=
  dump_address_prefix ((address + 16 * k) % 2 ^ 32) ++
    dump_cluster buffer (16 * k) ++ dump_cluster buffer (16 * k + 4) ++
    dump_cluster buffer (16 * k + 8) ++ dump_cluster buffer (16 * k + 12) ++
    (List.range 16).map (fun p => buffer (16 * k + p)) ++ [10, 13]

/-- The first `n` full lines of a dump, one after the other. -/
def dump_full_lines_text (buffer : Nat → Byte) (address n : Nat) : List Byte :=
  ((List.range n).map (dump_full_line buffer address)).flatten

/-- Position `p` (0 to 15) of the hexadecimal area of the partial line of a
dump of `size` bytes: two digits when the byte is there, two spaces when it is
missing. -/
def dump_partial_cell (buffer : Nat → Byte) (size p : Nat) : List Byte :=
  if p < size % 16 then hex_byte (buffer (size - size % 16 + p)) else [32, 32]

/-- The 4-byte group `g` (0 to 3) of the hexadecimal area of the partial line. -/
def dump_partial_group (buffer : Nat → Byte) (size g : Nat) : List Byte :=
  dump_partial_cell buffer size (4 * g) ++ dump_partial_cell buffer size (4 * g + 1) ++
    dump_partial_cell buffer size (4 * g + 2) ++ dump_partial_cell buffer size (4 * g + 3)

/-- The hexadecimal area of the partial line: four groups with one space
between consecutive groups. -/
def dump_partial_hex_area (buffer : Nat → Byte) (size : Nat) : List Byte :=
  dump_partial_group buffer size 0 ++ [32] ++ dump_partial_group buffer size 1 ++ [32] ++
    dump_partial_group buffer size 2 ++ [32] ++ dump_partial_group buffer size 3

/-- The raw bytes of the partial line: the `size % 16` bytes that are there. -/
def dump_partial_raw (buffer : Nat → Byte) (size : Nat) : List Byte :=
  (List.range (size % 16)).map (fun p => buffer (size - size % 16 + p))

/-- The partial line of a dump of `size` bytes: the address prefix of
`address + (size - size % 16)`, the hexadecimal area, one space, the raw bytes
that are there, and the line terminator. -/
def dump_partial_line (buffer : Nat → Byte) (address size : Nat) : List Byte :=
  dump_address_prefix ((address + (size - size % 16)) % 2 ^ 32) ++
    dump_partial_hex_area buffer size ++ [32] ++ dump_partial_raw buffer size ++ [10, 13]

/-- The function `fun i => 'A' + i`, a buffer used to run the dump on concrete
inputs. -/
def sample_buffer (i : Nat) : Byte := ⟨(65 + i) % 256, Nat.mod_lt _ (by decide)⟩

/-! ## Interrupt controller and interrupt sources -/

/-- Modelled from the spec: the state of the interrupt controller (`irq_add_handler`,
`irq_enable`, `irq_disable`, `irq_remove_handler` of irq/irq.h) and of the
interrupt sources of the serial backend (`enable_it`, `disable_it`), none of
which is part of the sources.  It holds the identities under which the console
dispatch routine is registered, the identities whose interrupt line is
enabled, and the backend sources, given by address and mask, that are
unmasked. -/
structure IrqState where
  registered : List Nat
  enabled : List Nat
  unmasked : List (Nat × Nat)
deriving DecidableEq

/-- Modelled from the spec: the effect of one external call on the interrupt
state.  Registering and deregistering the dispatch routine, enabling and
disabling an interrupt line, unmasking and masking a backend source add
respectively remove the entry; every other call leaves the state alone. -/
def IrqState.step (s : IrqState) : Event → IrqState
  | .irq_add_handler id => { s with registered := id :: s.registered }
  | .irq_remove_handler id => { s with registered := s.registered.filter (fun x => x ≠ id) }
  | .irq_enable id => { s with enabled := id :: s.enabled }
  | .irq_disable id => { s with enabled := s.enabled.filter (fun x => x ≠ id) }
  | .enable_it addr mask => { s with unmasked := (addr, mask) :: s.unmasked }
  | .disable_it addr mask =>
    { s with unmasked := s.unmasked.filter (fun x => x ≠ (addr, mask)) }
  | _ => s

/-- Modelled from the spec: the interrupt state after the external calls that
lead from the world `w` to the later world `w2`, starting from `s`. -/
def IrqState.after (s : IrqState) (w w2 : World) : IrqState :=
  (w2.trace.drop w.trace.length).foldl IrqState.step s

/-- Modelled from the spec: whether a receive interrupt of the console
peripheral reaches the dispatch routine: the receive source of the backend is
unmasked, the interrupt line of the console identity is enabled, and the
routine is registered under that identity. -/
def IrqState.dispatches (s : IrqState) (chip : Chip) (fam : Family) (w : World) : Prop :=
  (w.console_addr, (console chip fam).rx_int_mask) ∈ s.unmasked ∧
  w.console_id ∈ s.enabled ∧ w.console_id ∈ s.registered

instance (s : IrqState) (chip : Chip) (fam : Family) (w : World) :
    Decidable (s.dispatches chip fam w) := by
  unfold IrqState.dispatches; infer_instance

/-- Modelled from the spec: the arrival of a byte at the console peripheral.
The byte becomes pending and the backend reports ready; the interrupt
controller runs `console_handler` when the interrupt is dispatched, and
nothing runs otherwise. -/
def irq_receive (s : IrqState) (chip : Chip) (fam : Family) (w : World) (b : Byte) :
    Outcome Unit × World :=
  if s.dispatches chip fam w then
    console_handler { w with rx := w.rx ++ [b], hw_rx_ready := true }
  else (.ret (), { w with rx := w.rx ++ [b], hw_rx_ready := true })

/-- The interrupt state in which nothing is registered, enabled or unmasked. -/
def IrqState.idle : IrqState := { registered := [], enabled := [], unmasked := [] }

/-! ## Character I/O gate and configuration -/

/-- C1: while the console is uninitialized, `console_put_char` leaves the
whole state (trace of backend calls included) as it was, `console_is_tx_empty`
answers `true` and `console_is_rx_ready` answers `false` without any backend
call, and `console_get_char` ends in the fatal assertion without returning a
byte and without any backend call. -/
theorem uninitialized_io_degrades (w : World) (h : w.console_initialized = false)
    (c : Byte) :
    console_put_char w c = w ∧
    console_is_tx_empty w = (true, w) ∧
    console_is_rx_ready w = (false, w) ∧
    console_get_char w = (Outcome.fatal, w) := by
  simp [console_put_char, console_is_tx_empty, console_is_rx_ready, console_get_char, h]

/-- Witness for C1 on the state at program start, with three bytes pending in
the backend. -/
theorem uninitialized_io_degrades_witness :
    (World.boot [49, 50, 13] false true).console_initialized = false ∧
    console_put_char (World.boot [49, 50, 13] false true) 65
      = World.boot [49, 50, 13] false true ∧
    console_is_tx_empty (World.boot [49, 50, 13] false true)
      = (true, World.boot [49, 50, 13] false true) ∧
    console_is_rx_ready (World.boot [49, 50, 13] false true)
      = (false, World.boot [49, 50, 13] false true) ∧
    console_get_char (World.boot [49, 50, 13] false true)
      = (Outcome.fatal, World.boot [49, 50, 13] false true) :=
  ⟨rfl, uninitialized_io_degrades (World.boot [49, 50, 13] false true) rfl 65⟩

/-- C2: `console_enable_rx_interrupt` and `console_disable_rx_interrupt` do not
consult the initialized flag.  Called on the state at program start (console
uninitialized, address `NULL`), each of them calls a backend entry point,
`enable_it` respectively `disable_it`, with the `NULL` address. -/
theorem rx_interrupt_ops_reach_backend_uninitialized (chip : Chip) (fam : Family)
    (rx : List Byte) (txe rxr : Bool) :
    (World.boot rx txe rxr).console_initialized = false ∧
    (console_enable_rx_interrupt chip fam (World.boot rx txe rxr)).trace
      = [Event.irq_add_handler 0, Event.irq_enable 0,
         Event.enable_it 0 (console chip fam).rx_int_mask] ∧
    (console_disable_rx_interrupt chip fam (World.boot rx txe rxr)).trace
      = [Event.disable_it 0 (console chip fam).rx_int_mask, Event.irq_disable 0,
         Event.irq_remove_handler 0] ∧
    (Event.enable_it 0 (console chip fam).rx_int_mask).isBackend = true ∧
    (Event.disable_it 0 (console chip fam).rx_int_mask).isBackend = true := by
  simp [console_enable_rx_interrupt, console_disable_rx_interrupt, World.boot,
    World.emit, Event.isBackend]

/-- C10: `console_configure` ends in the fatal assertion exactly when the
address resolves to `ID_PERIPH_COUNT`, and then the state and the trace are
untouched; otherwise it returns with the resolved identity and the address
stored, the flag set, and exactly two external calls appended in this order:
the clock enable for that identity and the backend `init` with the address,
the mode bits of the family and the baud rate.  For the debug unit, whose
identity is a valid one, the fatal case is exactly `addr ≠ DBGU`. -/
theorem console_configure_spec (chip : Chip) (fam : Family) (w : World)
    (addr baudrate : Nat) :
    ((console_configure chip fam w addr baudrate).1 = Outcome.fatal ↔
      resolve_id chip fam addr = chip.ID_PERIPH_COUNT) ∧
    (resolve_id chip fam addr = chip.ID_PERIPH_COUNT →
      console_configure chip fam w addr baudrate = (Outcome.fatal, w)) ∧
    (resolve_id chip fam addr ≠ chip.ID_PERIPH_COUNT →
      console_configure chip fam w addr baudrate =
        (Outcome.ret (),
          { w with
            console_id := resolve_id chip fam addr
            console_addr := addr
            console_initialized := true
            trace := w.trace ++
              [Event.pmc_configure_peripheral (resolve_id chip fam addr) true,
               Event.init addr (console chip fam).mode baudrate] })) ∧
    (fam = Family.dbgu → chip.ID_DBGU ≠ chip.ID_PERIPH_COUNT →
      ((console_configure chip fam w addr baudrate).1 = Outcome.fatal ↔
        addr ≠ chip.DBGU)) := by
  refine ⟨?_, ?_, ?_, ?_⟩
  · by_cases h : resolve_id chip fam addr = chip.ID_PERIPH_COUNT <;>
      simp [console_configure, h]
  · intro h
    simp [console_configure, h]
  · intro h
    simp [console_configure, h, World.emit]
  · intro hf hid
    subst hf
    by_cases ha : addr = chip.DBGU
    · simp [console_configure, resolve_id, ha, hid]
    · simp [console_configure, resolve_id, ha]

/-- Witness for C10: on the sample chip, the debug unit at its address is
accepted and configured at 115200 baud, and address `0` is rejected. -/
theorem console_configure_spec_witness :
    console_configure sample_chip Family.dbgu (World.boot [] true false) 0xFFFFEE00 115200
      = (Outcome.ret (),
          { World.boot [] true false with
            console_id := 2
            console_addr := 0xFFFFEE00
            console_initialized := true
            trace := [Event.pmc_configure_peripheral 2 true,
                      Event.init 0xFFFFEE00 0x800 115200] }) ∧
    ((console_configure sample_chip Family.dbgu (World.boot [] true false) 0 115200).1
      = Outcome.fatal ↔ (0 : Nat) ≠ sample_chip.DBGU) :=
  ⟨(console_configure_spec sample_chip Family.dbgu (World.boot [] true false)
      0xFFFFEE00 115200).2.2.1 (by decide),
   (console_configure_spec sample_chip Family.dbgu (World.boot [] true false)
      0 115200).2.2.2 rfl (by decide)⟩

/-! ## The decimal input loop -/

theorem console_get_char_nil (w : World) (h : w.console_initialized = true)
    (hrx : w.rx = []) :
    console_get_char w = (Outcome.blocked, w.emit (Event.get_char w.console_addr)) := by
  cases w
  simp_all [console_get_char, World.emit]

/-- One read-and-echo step on an initialized console. -/
theorem read_echo_step (w : World) (h : w.console_initialized = true)
    (b : Byte) (rest : List Byte) (hrx : w.rx = b :: rest) :
    console_get_char w = (Outcome.ret b,
        { w with rx := rest, trace := w.trace ++ [Event.get_char w.console_addr] }) ∧
    console_put_char
        { w with rx := rest, trace := w.trace ++ [Event.get_char w.console_addr] } b
      = w.after_echo [b] rest := by
  cases w
  simp_all [console_get_char, console_put_char, World.emit, World.after_echo,
    read_echo_trace]

theorem after_echo_initialized (w : World) (ds tail : List Byte) :
    (w.after_echo ds tail).console_initialized = w.console_initialized := rfl

theorem after_echo_rx (w : World) (ds tail : List Byte) :
    (w.after_echo ds tail).rx = tail := rfl

theorem read_echo_trace_append (addr : Nat) (xs ys : List Byte) :
    read_echo_trace addr (xs ++ ys) = read_echo_trace addr xs ++ read_echo_trace addr ys := by
  induction xs with
  | nil => rfl
  | cons x xs ih => simp [read_echo_trace, ih]

theorem after_echo_after_echo (w : World) (xs ys mid tail : List Byte) :
    (w.after_echo xs mid).after_echo ys tail = w.after_echo (xs ++ ys) tail := by
  simp [World.after_echo, read_echo_trace_append]

theorem after_echo_nil (w : World) : w.after_echo [] w.rx = w := by
  cases w
  simp [World.after_echo, read_echo_trace]

/-- A run of digit bytes: each is read, echoed and accumulated, and the loop
goes on with what follows. -/
theorem get_integer_loop_digits (ds : List Byte) (hds : ∀ d ∈ ds, is_digit d) :
    ∀ (fuel : Nat) (w : World) (tail : List Byte) (pvalue nb value : Nat),
      nb < 256 → w.console_initialized = true → w.rx = ds ++ tail →
      get_integer_loop (fuel + ds.length) w pvalue nb value =
        get_integer_loop fuel (w.after_echo ds tail) pvalue
          ((nb + ds.length) % 256) (decimal_fold value ds) := by
  induction ds with
  | nil =>
    intro fuel w tail pvalue nb value hnb _ hrx
    simp only [List.nil_append] at hrx
    simp [decimal_fold, ← hrx, after_echo_nil, Nat.mod_eq_of_lt hnb]
  | cons d ds ih =>
    intro fuel w tail pvalue nb value hnb hinit hrx
    have hd : is_digit d := hds d (List.mem_cons_self d ds)
    obtain ⟨hg, hp⟩ := read_echo_step w hinit d (ds ++ tail) hrx
    have hlen : fuel + (d :: ds).length = (fuel + ds.length) + 1 := by
      simp [Nat.add_assoc]
    rw [hlen, get_integer_loop]
    simp only [hg, hp, hd, if_true]
    rw [ih (fun x hx => hds x (List.mem_cons_of_mem d hx)) fuel (w.after_echo [d] (ds ++ tail))
      tail pvalue _ _ (Nat.mod_lt _ (by decide)) hinit rfl]
    rw [after_echo_after_echo]
    have hnb2 : ((nb + 1) % 256 + ds.length) % 256 = (nb + (d :: ds).length) % 256 := by
      simp only [List.length_cons]; omega
    rw [hnb2]
    rfl

/-- The complete behaviour of `console_get_integer` on an input that holds a
byte which is not a digit: `ds` are the digits before the first such byte `t`.
The digit counter is a `uint8_t`, so what is tested at a terminator is the
number of digits modulo 256. -/
theorem console_get_integer_digits_then (w : World) (hinit : w.console_initialized = true)
    (ds : List Byte) (hds : ∀ d ∈ ds, is_digit d) (t : Byte) (ht : ¬ is_digit t)
    (rest : List Byte) (hrx : w.rx = ds ++ t :: rest) (pvalue : Nat) :
    console_get_integer w pvalue =
      if t.val = 13 ∨ t.val = 32 then
        if ds.length % 256 = 0 then
          ⟨Outcome.ret 0,
            (w.after_echo (ds ++ [t]) rest).printf
              "\n\rWrite a number and press ENTER or SPACE!\n\r" [], pvalue⟩
        else
          ⟨Outcome.ret 1, (w.after_echo (ds ++ [t]) rest).printf "\n\r" [],
            decimal_fold 0 ds⟩
      else
        ⟨Outcome.ret 0,
          (w.after_echo (ds ++ [t]) rest).printf
            "\n\r\x27%c\x27 not a number!\n\r" [t.val], pvalue⟩ := by
  have hlen : w.rx.length + 1 = (rest.length + 1 + 1) + ds.length := by
    rw [hrx]; simp only [List.length_append, List.length_cons]; omega
  obtain ⟨hg, hp⟩ := read_echo_step (w.after_echo ds (t :: rest)) hinit t rest rfl
  rw [console_get_integer, hlen,
    get_integer_loop_digits ds hds _ w (t :: rest) pvalue 0 0 (by decide) hinit hrx,
    get_integer_loop]
  simp only [hg, hp, ht, if_false, after_echo_after_echo, Nat.zero_add]
  by_cases h1 : t.val = 13 ∨ t.val = 32
  · by_cases h2 : ds.length % 256 = 0 <;> simp [h1, h2]
  · simp [h1]

/-! ## Canonical decimal numerals -/

theorem digit_char_val (d : Nat) (hd : d < 10) : (digit_char d).val = 48 + d := by
  simp only [digit_char]
  omega

theorem is_digit_digit_char (d : Nat) (hd : d < 10) : is_digit (digit_char d) := by
  simp only [is_digit, digit_char_val d hd]
  omega

theorem decimal_fold_append (value : Nat) (xs ys : List Byte) :
    decimal_fold value (xs ++ ys) = decimal_fold (decimal_fold value xs) ys := by
  simp [decimal_fold, List.foldl_append]

/-- Folding the most-significant-first rendering of a little-endian digit list
computes its value modulo `2 ^ 32`. -/
theorem decimal_fold_reverse_digits (L : List Nat) (hL : ∀ d ∈ L, d < 10) :
    decimal_fold 0 (L.reverse.map digit_char) = Nat.ofDigits 10 L % 2 ^ 32 := by
  induction L with
  | nil => simp [decimal_fold]
  | cons d L ih =>
    have hd : d < 10 := hL d (List.mem_cons_self d L)
    have ih2 := ih (fun x hx => hL x (List.mem_cons_of_mem d hx))
    rw [List.reverse_cons, List.map_append, decimal_fold_append, ih2, Nat.ofDigits_cons]
    simp only [List.map_cons, List.map_nil, decimal_fold, List.foldl_cons, List.foldl_nil,
      digit_char_val d hd]
    generalize Nat.ofDigits 10 L = x
    push_cast
    omega

theorem decimal_numeral_fold (v : Nat) (hv : v < 2 ^ 32) :
    decimal_fold 0 (decimal_numeral v) = v := by
  unfold decimal_numeral
  split
  · next h => subst h; decide
  · rw [decimal_fold_reverse_digits _ (fun d hd => Nat.digits_lt_base (by decide) hd),
      Nat.ofDigits_digits]
    exact Nat.mod_eq_of_lt hv

theorem decimal_numeral_digits (v : Nat) : ∀ d ∈ decimal_numeral v, is_digit d := by
  unfold decimal_numeral
  split
  · intro d hd
    simp only [List.mem_singleton] at hd
    subst hd
    decide
  · intro d hd
    simp only [List.mem_map, List.mem_reverse] at hd
    obtain ⟨x, hx, rfl⟩ := hd
    exact is_digit_digit_char x (Nat.digits_lt_base (by decide) hx)

theorem decimal_numeral_length (v : Nat) (hv : v < 2 ^ 32) :
    1 ≤ (decimal_numeral v).length ∧ (decimal_numeral v).length ≤ 10 := by
  unfold decimal_numeral
  split
  · simp
  · next h =>
    simp only [List.length_map, List.length_reverse]
    constructor
    · exact List.length_pos.mpr (Nat.digits_ne_nil_iff_ne_zero.mpr h)
    · by_contra hlen
      have h1 : 10 ^ 11 ≤ 10 ^ (Nat.digits 10 v).length :=
        Nat.pow_le_pow_right (by decide) (by omega)
      have h2 := Nat.base_pow_length_digits_le 10 v (by decide) h
      omega

/-- A canonical numeral has no leading zero, except the numeral of zero. -/
theorem decimal_numeral_head (v : Nat) (hv : v ≠ 0) :
    (decimal_numeral v).head? ≠ some 48 := by
  have hne : Nat.digits 10 v ≠ [] := Nat.digits_ne_nil_iff_ne_zero.mpr hv
  have hlast := Nat.getLast_digit_ne_zero 10 hv
  have hlt : (Nat.digits 10 v).getLast hne < 10 :=
    Nat.digits_lt_base (by decide) (List.getLast_mem hne)
  simp only [decimal_numeral, hv, if_false, List.head?_map, List.head?_reverse,
    List.getLast?_eq_getLast _ hne, Option.map_some']
  intro h
  have h2 := congrArg (fun o => o.map Fin.val) h
  simp only [Option.map_some', digit_char_val _ hlt] at h2
  have h3 := Option.some.inj h2
  simp at h3
  omega

/-! ## Shape of the results of the parsing helpers -/

/-- The three ways a call of `console_get_char` followed by the echo can go. -/
theorem console_get_char_cases (w : World) :
    (w.console_initialized = false ∧ console_get_char w = (Outcome.fatal, w)) ∨
    (w.rx = [] ∧
      console_get_char w = (Outcome.blocked, w.emit (Event.get_char w.console_addr))) ∨
    (∃ b rest w1, w.console_initialized = true ∧ w.rx = b :: rest ∧
      console_get_char w = (Outcome.ret b, w1) ∧
      console_put_char w1 b = w.after_echo [b] rest) := by
  cases hi : w.console_initialized
  · left
    simp [console_get_char, hi]
  · right
    cases hrx : w.rx with
    | nil =>
      left
      exact ⟨rfl, console_get_char_nil w hi hrx⟩
    | cons b rest =>
      right
      exact ⟨b, rest, _, rfl, rfl, read_echo_step w hi b rest hrx⟩

/-- With more fuel than pending bytes the decimal loop ends by itself; it
either succeeds, with a result that does not depend on the prior content of
the output cell, or ends otherwise and leaves that content as it was. -/
theorem get_integer_loop_shape : ∀ (fuel : Nat) (w : World) (nb value : Nat),
    w.rx.length < fuel →
    (∃ w1 v, ∀ pvalue,
      get_integer_loop fuel w pvalue nb value = some ⟨Outcome.ret 1, w1, v⟩) ∨
    (∃ o w1, (o = Outcome.ret 0 ∨ o = Outcome.fatal ∨ o = Outcome.blocked) ∧
      w1.rx.length ≤ w.rx.length ∧
      ∀ pvalue, get_integer_loop fuel w pvalue nb value = some ⟨o, w1, pvalue⟩) := by
  intro fuel
  induction fuel with
  | zero => intro w nb value h; omega
  | succ fuel ih =>
    intro w nb value hlen
    rcases console_get_char_cases w with ⟨_, hg⟩ | ⟨_, hg⟩ | ⟨b, rest, w1, hi, hrx, hg, hp⟩
    · right
      exact ⟨_, w, Or.inr (Or.inl rfl), le_refl _, fun pv => by simp [get_integer_loop, hg]⟩
    · right
      exact ⟨_, w.emit (Event.get_char w.console_addr), Or.inr (Or.inr rfl), le_refl _,
        fun pv => by simp [get_integer_loop, hg]⟩
    · have hrest : (w.after_echo [b] rest).rx.length < fuel := by
        rw [after_echo_rx]; rw [hrx] at hlen; simp only [List.length_cons] at hlen; omega
      have hle : rest.length ≤ w.rx.length := by rw [hrx]; simp
      by_cases hd : is_digit b
      · rcases ih (w.after_echo [b] rest) ((nb + 1) % 256)
            ((value * 10 + (b.val - 48)) % 2 ^ 32) hrest with ⟨w2, v, h⟩ | ⟨o, w2, ho, hl, h⟩
        · left
          exact ⟨w2, v, fun pv => by
            rw [get_integer_loop]; simp only [hg, hp, hd, if_true]; exact h pv⟩
        · right
          refine ⟨o, w2, ho, ?_, fun pv => by
            rw [get_integer_loop]; simp only [hg, hp, hd, if_true]; exact h pv⟩
          rw [after_echo_rx] at hl
          omega
      · by_cases ht : b.val = 13 ∨ b.val = 32
        · by_cases hnb : nb = 0
          · right
            exact ⟨Outcome.ret 0,
              (w.after_echo [b] rest).printf
                "\n\rWrite a number and press ENTER or SPACE!\n\r" [],
              Or.inl rfl, hle,
              fun pv => by simp [get_integer_loop, hg, hp, hd, ht, hnb]⟩
          · left
            exact ⟨(w.after_echo [b] rest).printf "\n\r" [], value,
              fun pv => by simp [get_integer_loop, hg, hp, hd, ht, hnb]⟩
        · right
          exact ⟨Outcome.ret 0,
            (w.after_echo [b] rest).printf "\n\r\x27%c\x27 not a number!\n\r" [b.val],
            Or.inl rfl, hle,
            fun pv => by simp [get_integer_loop, hg, hp, hd, ht]⟩

/-- The function `console_get_integer` always ends in one of four ways:
success, failure, the fatal assertion, or waiting for input.  Only on success
is the output cell written, and then with a value that does not depend on what
the cell held. -/
theorem console_get_integer_shape (w : World) :
    (∃ w1 v, ∀ pvalue, console_get_integer w pvalue = ⟨Outcome.ret 1, w1, v⟩) ∨
    (∃ o w1, (o = Outcome.ret 0 ∨ o = Outcome.fatal ∨ o = Outcome.blocked) ∧
      ∀ pvalue, console_get_integer w pvalue = ⟨o, w1, pvalue⟩) := by
  rcases get_integer_loop_shape (w.rx.length + 1) w 0 0 (Nat.lt_succ_self _) with
    ⟨w1, v, h⟩ | ⟨o, w1, ho, _, h⟩
  · left
    exact ⟨w1, v, fun pv => by simp [console_get_integer, h]⟩
  · right
    exact ⟨o, w1, ho, fun pv => by simp [console_get_integer, h]⟩

/-! ## The hexadecimal input loop -/

/-- One turn of the hexadecimal loop on a hexadecimal character. -/
theorem get_hexa_32_loop_step (n : Nat) (w : World) (hinit : w.console_initialized = true)
    (b : Byte) (hb : is_hexa b) (rest : List Byte) (hrx : w.rx = b :: rest)
    (pvalue value : Nat) :
    get_hexa_32_loop (n + 1) w pvalue value =
      get_hexa_32_loop n (w.after_echo [b] rest) pvalue
        ((value * 16 + hexa_value b) % 2 ^ 32) := by
  obtain ⟨hg, hp⟩ := read_echo_step w hinit b rest hrx
  rw [get_hexa_32_loop]
  simp only [hg, hp, hexa_value]
  by_cases h1 : is_digit b
  · simp only [h1, if_true]
  · by_cases h2 : is_upper_hexa b
    · simp only [h1, h2, if_true, if_false]
    · have h3 : is_lower_hexa b := by
        rcases hb with h | h | h
        · exact absurd h h1
        · exact absurd h h2
        · exact h
      simp only [h1, h2, h3, if_true, if_false]

/-- One turn of the hexadecimal loop on a byte that is no hexadecimal
character: the call fails at once and leaves the output cell alone. -/
theorem get_hexa_32_loop_reject (n : Nat) (w : World) (hinit : w.console_initialized = true)
    (b : Byte) (hb : ¬ is_hexa b) (rest : List Byte) (hrx : w.rx = b :: rest)
    (pvalue value : Nat) :
    get_hexa_32_loop (n + 1) w pvalue value =
      ⟨Outcome.ret 0,
        (w.after_echo [b] rest).printf "\n\rIt is not a hexa character!\n\r" [], pvalue⟩ := by
  obtain ⟨hg, hp⟩ := read_echo_step w hinit b rest hrx
  have h1 : ¬ is_digit b := fun h => hb (Or.inl h)
  have h2 : ¬ is_upper_hexa b := fun h => hb (Or.inr (Or.inl h))
  have h3 : ¬ is_lower_hexa b := fun h => hb (Or.inr (Or.inr h))
  rw [get_hexa_32_loop]
  simp only [hg, hp, h1, h2, h3, if_false]

/-- A run of hexadecimal characters: each is read, echoed and accumulated. -/
theorem get_hexa_32_loop_hexas (ds : List Byte) (hds : ∀ d ∈ ds, is_hexa d) :
    ∀ (n : Nat) (w : World) (tail : List Byte) (pvalue value : Nat),
      w.console_initialized = true → w.rx = ds ++ tail →
      get_hexa_32_loop (n + ds.length) w pvalue value =
        get_hexa_32_loop n (w.after_echo ds tail) pvalue (hexa_fold value ds) := by
  induction ds with
  | nil =>
    intro n w tail pvalue value _ hrx
    simp only [List.nil_append] at hrx
    simp [hexa_fold, ← hrx, after_echo_nil]
  | cons d ds ih =>
    intro n w tail pvalue value hinit hrx
    have hlen : n + (d :: ds).length = (n + ds.length) + 1 := by
      simp [Nat.add_assoc]
    rw [hlen, get_hexa_32_loop_step _ w hinit d (hds d (List.mem_cons_self d ds))
      (ds ++ tail) hrx,
      ih (fun x hx => hds x (List.mem_cons_of_mem d hx)) n (w.after_echo [d] (ds ++ tail))
        tail pvalue _ hinit rfl,
      after_echo_after_echo]
    rfl

/-- The hexadecimal loop of an initialized console succeeds exactly when there
are at least as many pending bytes as turns left and all of them are
hexadecimal characters. -/
theorem get_hexa_32_loop_success_iff : ∀ (n : Nat) (w : World) (pvalue value : Nat),
    w.console_initialized = true →
    ((get_hexa_32_loop n w pvalue value).out = Outcome.ret 1 ↔
      n ≤ w.rx.length ∧ ∀ b ∈ w.rx.take n, is_hexa b) := by
  intro n
  induction n with
  | zero =>
    intro w pvalue value _
    simp [get_hexa_32_loop]
  | succ n ih =>
    intro w pvalue value hinit
    cases hrx : w.rx with
    | nil =>
      simp [get_hexa_32_loop, console_get_char_nil w hinit hrx]
    | cons b rest =>
      by_cases hb : is_hexa b
      · rw [get_hexa_32_loop_step n w hinit b hb rest hrx,
          ih (w.after_echo [b] rest) pvalue _ hinit, after_echo_rx]
        simp [hb]
      · rw [get_hexa_32_loop_reject n w hinit b hb rest hrx]
        simp [hb]

/-- The hexadecimal loop either succeeds, with a result that does not depend
on the prior content of the output cell, or ends otherwise and leaves that
content as it was. -/
theorem get_hexa_32_loop_shape : ∀ (n : Nat) (w : World) (value : Nat),
    (∃ w1 v, ∀ pvalue, get_hexa_32_loop n w pvalue value = ⟨Outcome.ret 1, w1, v⟩) ∨
    (∃ o w1, (o = Outcome.ret 0 ∨ o = Outcome.fatal ∨ o = Outcome.blocked) ∧
      ∀ pvalue, get_hexa_32_loop n w pvalue value = ⟨o, w1, pvalue⟩) := by
  intro n
  induction n with
  | zero =>
    intro w value
    left
    exact ⟨w.printf "\n\r" [], value, fun pv => rfl⟩
  | succ n ih =>
    intro w value
    rcases console_get_char_cases w with ⟨_, hg⟩ | ⟨_, hg⟩ | ⟨b, rest, w1, hi, hrx, _, _⟩
    · right
      exact ⟨_, w, Or.inr (Or.inl rfl), fun pv => by simp [get_hexa_32_loop, hg]⟩
    · right
      exact ⟨_, w.emit (Event.get_char w.console_addr), Or.inr (Or.inr rfl),
        fun pv => by simp [get_hexa_32_loop, hg]⟩
    · by_cases hb : is_hexa b
      · rcases ih (w.after_echo [b] rest) ((value * 16 + hexa_value b) % 2 ^ 32) with
          ⟨w2, v, h⟩ | ⟨o, w2, ho, h⟩
        · left
          exact ⟨w2, v, fun pv => by rw [get_hexa_32_loop_step n w hi b hb rest hrx, h]⟩
        · right
          exact ⟨o, w2, ho, fun pv => by rw [get_hexa_32_loop_step n w hi b hb rest hrx, h]⟩
      · right
        exact ⟨Outcome.ret 0, _, Or.inl rfl,
          fun pv => get_hexa_32_loop_reject n w hi b hb rest hrx pv value⟩

/-! ## Hexadecimal renderings -/

theorem is_hexa_hexa_char (upper : Bool) (n : Nat) (hn : n < 16) :
    is_hexa (hexa_char upper n) := by
  interval_cases n <;> cases upper <;> decide

theorem hexa_value_hexa_char (upper : Bool) (n : Nat) (hn : n < 16) :
    hexa_value (hexa_char upper n) = n := by
  interval_cases n <;> cases upper <;> decide

theorem hexa_numeral_length (v : Nat) (upper : Nat → Bool) :
    (hexa_numeral v upper).length = 8 := by
  simp [hexa_numeral]

theorem hexa_numeral_hexas (v : Nat) (upper : Nat → Bool) :
    ∀ d ∈ hexa_numeral v upper, is_hexa d := by
  intro d hd
  simp only [hexa_numeral, List.mem_map] at hd
  obtain ⟨i, _, rfl⟩ := hd
  exact is_hexa_hexa_char _ _ (Nat.mod_lt _ (by decide))

/-- Folding the eight characters of the rendering of a 32-bit value gives the
value back, whatever the letter case. -/
theorem hexa_numeral_fold (v : Nat) (hv : v < 2 ^ 32) (upper : Nat → Bool) :
    hexa_fold 0 (hexa_numeral v upper) = v := by
  have h16 : ∀ x : Nat, x % 16 < 16 := fun x => Nat.mod_lt _ (by decide)
  simp only [hexa_numeral, hexa_fold, List.range, List.range.loop, List.map_cons,
    List.map_nil, List.foldl_cons, List.foldl_nil, hexa_value_hexa_char _ _ (h16 _)]
  norm_num
  omega

/-- How `console_get_integer_min_max` follows from `console_get_integer`: when
the latter succeeds with `v`, the range test decides; otherwise its outcome is
passed on, the output cell being left alone. -/
theorem console_get_integer_min_max_shape (w : World) :
    (∃ w1 v, (∀ pvalue, console_get_integer w pvalue = ⟨Outcome.ret 1, w1, v⟩) ∧
      ∀ pvalue min max, console_get_integer_min_max w pvalue min max =
        if v < min ∨ v > max then
          ⟨Outcome.ret 0,
            w1.printf "\n\rThe number have to be between %u and %u\n\r" [min, max], pvalue⟩
        else ⟨Outcome.ret 1, w1.printf "\n\r" [], v⟩) ∨
    (∃ o w1, (o = Outcome.ret 0 ∨ o = Outcome.fatal ∨ o = Outcome.blocked) ∧
      (∀ pvalue, console_get_integer w pvalue = ⟨o, w1, pvalue⟩) ∧
      ∀ pvalue min max, console_get_integer_min_max w pvalue min max = ⟨o, w1, pvalue⟩) := by
  rcases console_get_integer_shape w with ⟨w1, v, h⟩ | ⟨o, w1, ho, h⟩
  · left
    refine ⟨w1, v, h, fun pv min max => ?_⟩
    simp only [console_get_integer_min_max, h 0]
    simp
  · right
    refine ⟨o, w1, ho, h, fun pv min max => ?_⟩
    rcases ho with rfl | rfl | rfl <;> simp [console_get_integer_min_max, h 0]

/-! ## The claims on the parsing helpers -/

/-- C3: decimal round trip.  On an initialized console whose pending input is
the canonical decimal numeral of a 32-bit value `v` (1 to 10 digits) followed
by a carriage return or a space, `console_get_integer` returns 1, writes `v`,
and consumes exactly the numeral and the terminator: each of these bytes is
read and echoed once, and what follows stays pending. -/
theorem console_get_integer_decimal_roundtrip (w : World)
    (hinit : w.console_initialized = true) (v : Nat) (hv : v < 2 ^ 32) (t : Byte)
    (ht : t.val = 13 ∨ t.val = 32) (rest : List Byte)
    (hrx : w.rx = decimal_numeral v ++ t :: rest) (pvalue : Nat) :
    console_get_integer w pvalue =
      ⟨Outcome.ret 1, (w.after_echo (decimal_numeral v ++ [t]) rest).printf "\n\r" [], v⟩ ∧
    (console_get_integer w pvalue).world.rx = rest ∧
    1 ≤ (decimal_numeral v).length ∧ (decimal_numeral v).length ≤ 10 := by
  have hlen := decimal_numeral_length v hv
  have htd : ¬ is_digit t := by
    intro h
    simp only [is_digit] at h
    omega
  have hmod : ¬ (decimal_numeral v).length % 256 = 0 := by omega
  have h := console_get_integer_digits_then w hinit (decimal_numeral v)
    (decimal_numeral_digits v) t htd rest hrx pvalue
  simp only [ht, hmod, if_true, if_false, decimal_numeral_fold v hv] at h
  exact ⟨h, by rw [h]; rfl, hlen⟩

/-- Witness for C3: the input `"123 "` followed by `"9"` yields 123 and leaves
`"9"` pending. -/
theorem console_get_integer_decimal_roundtrip_witness :
    (console_get_integer (World.ready 2 0xFFFFEE00 [49, 50, 51, 32, 57]) 0).out
      = Outcome.ret 1 ∧
    (console_get_integer (World.ready 2 0xFFFFEE00 [49, 50, 51, 32, 57]) 0).pvalue = 123 ∧
    (console_get_integer (World.ready 2 0xFFFFEE00 [49, 50, 51, 32, 57]) 0).world.rx
      = [57] := by
  have h := console_get_integer_decimal_roundtrip
    (World.ready 2 0xFFFFEE00 [49, 50, 51, 32, 57]) rfl 123 (by decide) 32 (Or.inr rfl) [57]
    (by simp [World.ready, decimal_numeral, digit_char]) 0
  exact ⟨by rw [h.1], by rw [h.1], h.2.1⟩

/-- C4: the digit counter of `console_get_integer` is a `uint8_t`.  On 256
digits `'0'` followed by a carriage return the counter has wrapped to zero at
the terminator, and the call reports failure with the diagnostic
`Write a number and press ENTER or SPACE!`, leaving the output cell alone. -/
theorem console_get_integer_256_digits_fails :
    console_get_integer (World.ready 2 0xFFFFEE00 (List.replicate 256 48 ++ [13])) 7 =
      ⟨Outcome.ret 0,
        ((World.ready 2 0xFFFFEE00 (List.replicate 256 48 ++ [13])).after_echo
          (List.replicate 256 48 ++ [13]) []).printf
            "\n\rWrite a number and press ENTER or SPACE!\n\r" [], 7⟩ := by
  rw [console_get_integer_digits_then
    (World.ready 2 0xFFFFEE00 (List.replicate 256 48 ++ [13])) rfl (List.replicate 256 48)
    (fun d hd => by rw [List.eq_of_mem_replicate hd]; decide) 13 (by decide) [] rfl 7]
  rw [if_pos (show ((13 : Byte).val = 13 ∨ (13 : Byte).val = 32) from Or.inl rfl),
    if_pos (by rw [List.length_replicate])]

/-- C5: on an initialized console, when the first pending byte that is not a
decimal digit is neither carriage return nor space, `console_get_integer`
returns 0 right after reading and echoing that byte, whatever the number of
digits before it: the bytes up to and including it are consumed, what follows
stays pending, and the output cell is left alone. -/
theorem console_get_integer_rejects_other (w : World)
    (hinit : w.console_initialized = true) (ds : List Byte) (hds : ∀ d ∈ ds, is_digit d)
    (b : Byte) (hb : ¬ is_digit b) (hcr : b.val ≠ 13) (hsp : b.val ≠ 32)
    (rest : List Byte) (hrx : w.rx = ds ++ b :: rest) (pvalue : Nat) :
    console_get_integer w pvalue =
      ⟨Outcome.ret 0,
        (w.after_echo (ds ++ [b]) rest).printf
          "\n\r\x27%c\x27 not a number!\n\r" [b.val], pvalue⟩ ∧
    (console_get_integer w pvalue).world.rx = rest := by
  have h := console_get_integer_digits_then w hinit ds hds b hb rest hrx pvalue
  have hnt : ¬ (b.val = 13 ∨ b.val = 32) := by omega
  simp only [hnt, if_false] at h
  exact ⟨h, by rw [h]; rfl⟩

/-- Witness for C5: the input `"12x"` followed by `"34"` fails after three
bytes and leaves `"34"` pending. -/
theorem console_get_integer_rejects_other_witness :
    (console_get_integer (World.ready 2 0xFFFFEE00 [49, 50, 120, 51, 52]) 7).out
      = Outcome.ret 0 ∧
    (console_get_integer (World.ready 2 0xFFFFEE00 [49, 50, 120, 51, 52]) 7).pvalue = 7 ∧
    (console_get_integer (World.ready 2 0xFFFFEE00 [49, 50, 120, 51, 52]) 7).world.rx
      = [51, 52] := by
  have h := console_get_integer_rejects_other
    (World.ready 2 0xFFFFEE00 [49, 50, 120, 51, 52]) rfl [49, 50]
    (by simp [is_digit]; decide) 120 (by decide) (by decide) (by decide) [51, 52] rfl 7
  exact ⟨by rw [h.1], by rw [h.1], h.2⟩

/-- C6: hexadecimal round trip.  On an initialized console whose pending input
starts with the 8-character zero-padded rendering of a 32-bit value `v`, in
any mixture of letter case, `console_get_hexa_32` returns 1, writes `v`, and
reads and echoes exactly these 8 bytes; what follows stays pending. -/
theorem console_get_hexa_32_roundtrip (w : World) (hinit : w.console_initialized = true)
    (v : Nat) (hv : v < 2 ^ 32) (upper : Nat → Bool) (rest : List Byte)
    (hrx : w.rx = hexa_numeral v upper ++ rest) (pvalue : Nat) :
    console_get_hexa_32 w pvalue =
      ⟨Outcome.ret 1, (w.after_echo (hexa_numeral v upper) rest).printf "\n\r" [], v⟩ ∧
    (console_get_hexa_32 w pvalue).world.rx = rest ∧
    (hexa_numeral v upper).length = 8 := by
  have hlen := hexa_numeral_length v upper
  have h : console_get_hexa_32 w pvalue =
      ⟨Outcome.ret 1, (w.after_echo (hexa_numeral v upper) rest).printf "\n\r" [], v⟩ := by
    have h8 : 8 = 0 + (hexa_numeral v upper).length := by omega
    rw [console_get_hexa_32, h8,
      get_hexa_32_loop_hexas _ (hexa_numeral_hexas v upper) 0 w rest pvalue 0 hinit hrx,
      hexa_numeral_fold v hv upper]
    rfl
  exact ⟨h, by rw [h]; rfl, hlen⟩

/-- Witness for C6: `"1A2B3C4D"` followed by a carriage return yields
`0x1A2B3C4D` and leaves the carriage return pending. -/
theorem console_get_hexa_32_roundtrip_witness :
    (console_get_hexa_32
      (World.ready 2 0xFFFFEE00 [49, 65, 50, 66, 51, 67, 52, 68, 13]) 0).out
        = Outcome.ret 1 ∧
    (console_get_hexa_32
      (World.ready 2 0xFFFFEE00 [49, 65, 50, 66, 51, 67, 52, 68, 13]) 0).pvalue
        = 0x1A2B3C4D ∧
    (console_get_hexa_32
      (World.ready 2 0xFFFFEE00 [49, 65, 50, 66, 51, 67, 52, 68, 13]) 0).world.rx
        = [13] := by
  have h := console_get_hexa_32_roundtrip
    (World.ready 2 0xFFFFEE00 [49, 65, 50, 66, 51, 67, 52, 68, 13]) rfl 0x1A2B3C4D
    (by decide) (fun _ => true) [13] (by decide) 0
  exact ⟨by rw [h.1], by rw [h.1], h.2.1⟩

/-- C7: on an initialized console, if the first byte that is no hexadecimal
character stands at position `k ≤ 7` of the pending input, then
`console_get_hexa_32` returns 0 after reading and echoing exactly the `k + 1`
bytes up to and including it, leaving what follows pending and the output cell
alone; and the call returns 1 exactly when at least 8 bytes are pending and
the first 8 are all hexadecimal characters. -/
theorem console_get_hexa_32_first_bad_char (w : World)
    (hinit : w.console_initialized = true) (pvalue : Nat) :
    (∀ (pre : List Byte) (b : Byte) (rest : List Byte),
      w.rx = pre ++ b :: rest → pre.length ≤ 7 → (∀ d ∈ pre, is_hexa d) → ¬ is_hexa b →
      console_get_hexa_32 w pvalue =
        ⟨Outcome.ret 0,
          (w.after_echo (pre ++ [b]) rest).printf "\n\rIt is not a hexa character!\n\r" [],
          pvalue⟩) ∧
    ((console_get_hexa_32 w pvalue).out = Outcome.ret 1 ↔
      8 ≤ w.rx.length ∧ ∀ b ∈ w.rx.take 8, is_hexa b) := by
  refine ⟨?_, get_hexa_32_loop_success_iff 8 w pvalue 0 hinit⟩
  intro pre b rest hrx hk hpre hb
  have h8 : 8 = (7 - pre.length + 1) + pre.length := by omega
  rw [console_get_hexa_32, h8,
    get_hexa_32_loop_hexas pre hpre _ w (b :: rest) pvalue 0 hinit hrx,
    get_hexa_32_loop_reject _ (w.after_echo pre (b :: rest)) hinit b hb rest rfl,
    after_echo_after_echo]

/-- Witness for C7: `"1G2B3C4D"` fails at the second character; the six
characters after it stay pending. -/
theorem console_get_hexa_32_first_bad_char_witness :
    (console_get_hexa_32
      (World.ready 2 0xFFFFEE00 [49, 71, 50, 66, 51, 67, 52, 68]) 7).out = Outcome.ret 0 ∧
    (console_get_hexa_32
      (World.ready 2 0xFFFFEE00 [49, 71, 50, 66, 51, 67, 52, 68]) 7).pvalue = 7 ∧
    (console_get_hexa_32
      (World.ready 2 0xFFFFEE00 [49, 71, 50, 66, 51, 67, 52, 68]) 7).world.rx
        = [50, 66, 51, 67, 52, 68] := by
  have h := (console_get_hexa_32_first_bad_char
    (World.ready 2 0xFFFFEE00 [49, 71, 50, 66, 51, 67, 52, 68]) rfl 7).1
    [49] 71 [50, 66, 51, 67, 52, 68] rfl (by decide) (by simp [is_hexa, is_digit]; decide)
    (by decide)
  exact ⟨by rw [h], by rw [h], by rw [h]; rfl⟩

/-- C8: no partial results.  Whatever the state, the pending input and the
prior content of the output cell, when `console_get_integer`,
`console_get_hexa_32` or `console_get_integer_min_max` returns 0 the output
cell holds what it held before the call. -/
theorem parse_failure_keeps_output (w : World) (pvalue min max : Nat) :
    ((console_get_integer w pvalue).out = Outcome.ret 0 →
      (console_get_integer w pvalue).pvalue = pvalue) ∧
    ((console_get_hexa_32 w pvalue).out = Outcome.ret 0 →
      (console_get_hexa_32 w pvalue).pvalue = pvalue) ∧
    ((console_get_integer_min_max w pvalue min max).out = Outcome.ret 0 →
      (console_get_integer_min_max w pvalue min max).pvalue = pvalue) := by
  refine ⟨?_, ?_, ?_⟩
  · rcases console_get_integer_shape w with ⟨w1, v, h⟩ | ⟨o, w1, _, h⟩
    · rw [h]; intro h0; simp at h0
    · rw [h]; intro _; rfl
  · rcases get_hexa_32_loop_shape 8 w 0 with ⟨w1, v, h⟩ | ⟨o, w1, _, h⟩
    · rw [console_get_hexa_32, h]; intro h0; simp at h0
    · rw [console_get_hexa_32, h]; intro _; rfl
  · rcases console_get_integer_min_max_shape w with ⟨w1, v, _, h⟩ | ⟨o, w1, _, _, h⟩
    · rw [h]
      by_cases hr : v < min ∨ v > max
      · rw [if_pos hr]; intro _; rfl
      · rw [if_neg hr]; intro h0; simp at h0
    · rw [h]; intro _; rfl

/-- Witness for C8: the input `" "` makes `console_get_integer` return 0, and
the cell, which held 7, still holds 7. -/
theorem parse_failure_keeps_output_witness :
    (console_get_integer (World.ready 2 0xFFFFEE00 [32]) 7).out = Outcome.ret 0 ∧
    (console_get_integer (World.ready 2 0xFFFFEE00 [32]) 7).pvalue = 7 :=
  ⟨by decide,
   (parse_failure_keeps_output (World.ready 2 0xFFFFEE00 [32]) 7 10 50).1 (by decide)⟩

/-- C9: for every state, input and bounds, `console_get_integer_min_max`
returns 1 exactly when `console_get_integer` on the same state returns 1 with
a value between `min` and `max`, both included, and it then writes that value;
it leaves pending exactly the bytes `console_get_integer` leaves pending; and
when `min > max` it never returns 1.  The prior contents of the two output
cells play no role. -/
theorem console_get_integer_min_max_spec (w : World) (pvalue pvalue2 min max : Nat) :
    ((console_get_integer_min_max w pvalue min max).out = Outcome.ret 1 ↔
      (console_get_integer w pvalue2).out = Outcome.ret 1 ∧
      min ≤ (console_get_integer w pvalue2).pvalue ∧
      (console_get_integer w pvalue2).pvalue ≤ max) ∧
    ((console_get_integer_min_max w pvalue min max).out = Outcome.ret 1 →
      (console_get_integer_min_max w pvalue min max).pvalue
        = (console_get_integer w pvalue2).pvalue) ∧
    (console_get_integer_min_max w pvalue min max).world.rx
      = (console_get_integer w pvalue2).world.rx ∧
    (max < min → (console_get_integer_min_max w pvalue min max).out ≠ Outcome.ret 1) := by
  rcases console_get_integer_min_max_shape w with ⟨w1, v, hg, h⟩ | ⟨o, w1, ho, hg, h⟩
  · rw [h, hg]
    by_cases hr : v < min ∨ v > max
    · rw [if_pos hr]
      dsimp only
      refine ⟨?_, ?_, rfl, ?_⟩
      · constructor
        · intro h0; simp at h0
        · intro h0; omega
      · intro h0; simp at h0
      · intro _ h0; simp at h0
    · rw [if_neg hr]
      dsimp only
      refine ⟨?_, fun _ => rfl, rfl, ?_⟩
      · constructor
        · intro _; exact ⟨rfl, by omega, by omega⟩
        · intro _; rfl
      · intro hlt
        omega
  · rw [h, hg]
    have hne : o ≠ Outcome.ret 1 := by
      rcases ho with rfl | rfl | rfl <;> simp
    exact ⟨by simp [hne], fun h0 => absurd h0 hne, rfl, fun _ => hne⟩

/-- Witness for C9: the input `"42\r"` is accepted against the range 10 to 50,
with 42 written, and rejected against the empty range 50 to 10. -/
theorem console_get_integer_min_max_spec_witness :
    (console_get_integer_min_max (World.ready 2 0xFFFFEE00 [52, 50, 13]) 7 10 50).out
      = Outcome.ret 1 ∧
    (console_get_integer_min_max (World.ready 2 0xFFFFEE00 [52, 50, 13]) 7 10 50).pvalue
      = 42 ∧
    (console_get_integer_min_max (World.ready 2 0xFFFFEE00 [52, 50, 13]) 7 50 10).out
      ≠ Outcome.ret 1 := by
  have h1 := (console_get_integer_min_max_spec
    (World.ready 2 0xFFFFEE00 [52, 50, 13]) 7 0 10 50).1.mpr
    ⟨by decide, by decide, by decide⟩
  have h2 := (console_get_integer_min_max_spec
    (World.ready 2 0xFFFFEE00 [52, 50, 13]) 7 0 10 50).2.1 h1
  have h3 := (console_get_integer_min_max_spec
    (World.ready 2 0xFFFFEE00 [52, 50, 13]) 7 0 50 10).2.2.2 (by decide)
  exact ⟨h1, by rw [h2]; decide, h3⟩

/-! ## Configured console, interrupt bridge and echo -/

/-- What a completed `console_configure` leaves in the console variables. -/
theorem console_configure_ret (chip : Chip) (fam : Family) (w0 w : World)
    (addr baudrate : Nat)
    (hcfg : console_configure chip fam w0 addr baudrate = (Outcome.ret (), w)) :
    w.console_initialized = true ∧ w.console_addr = addr ∧
    w.console_id = resolve_id chip fam addr := by
  unfold console_configure at hcfg
  by_cases h : resolve_id chip fam addr = chip.ID_PERIPH_COUNT
  · simp [h] at hcfg
  · simp only [h, if_false, Prod.mk.injEq, true_and] at hcfg
    subst hcfg
    exact ⟨rfl, rfl, rfl⟩

theorem output_append (xs ys : List Event) : output (xs ++ ys) = output xs ++ output ys := by
  induction xs with
  | nil => rfl
  | cons x xs ih => simp [output, ih]

/-- C11: on a console initialized by `console_configure` with address `addr`,
`console_put_char` makes exactly one backend `put_char` call with `addr` and
the byte; `console_is_tx_empty` and `console_is_rx_ready` return what the
backend reports, after one call of `tx_empty` respectively `rx_ready` with
`addr`; and `console_get_char` makes exactly one backend call, `get_char` with
`addr`, and no `rx_ready` call, and ends as that call ends: with the pending
byte when there is one, waiting in the backend when there is none, whatever
the ready flag says. -/
theorem configured_io_forwards (chip : Chip) (fam : Family) (w0 w : World)
    (addr baudrate : Nat)
    (hcfg : console_configure chip fam w0 addr baudrate = (Outcome.ret (), w))
    (c : Byte) :
    console_put_char w c = { w with trace := w.trace ++ [Event.put_char addr c] } ∧
    console_is_tx_empty w
      = (w.hw_tx_empty, { w with trace := w.trace ++ [Event.tx_empty addr] }) ∧
    console_is_rx_ready w
      = (w.hw_rx_ready, { w with trace := w.trace ++ [Event.rx_ready addr] }) ∧
    (∀ b rest, w.rx = b :: rest →
      console_get_char w
        = (Outcome.ret b, { w with rx := rest, trace := w.trace ++ [Event.get_char addr] })) ∧
    (w.rx = [] →
      console_get_char w
        = (Outcome.blocked, { w with trace := w.trace ++ [Event.get_char addr] })) := by
  obtain ⟨hi, ha, _⟩ := console_configure_ret chip fam w0 w addr baudrate hcfg
  refine ⟨?_, ?_, ?_, ?_, ?_⟩
  · simp [console_put_char, hi, ha, World.emit]
  · simp [console_is_tx_empty, hi, ha, World.emit]
  · simp [console_is_rx_ready, hi, ha, World.emit]
  · intro b rest hrx
    simp [console_get_char, hi, ha, hrx, World.emit]
  · intro hrx
    simp [console_get_char, hi, ha, hrx, World.emit]

/-- Witness for C11: the debug unit of the sample chip, configured at 115200
baud with the byte `A` pending and the ready flag down; `console_get_char`
returns `A` after one backend call. -/
theorem configured_io_forwards_witness :
    console_get_char
      (console_configure sample_chip Family.dbgu (World.boot [65] true false)
        0xFFFFEE00 115200).2
      = (Outcome.ret 65,
          { (console_configure sample_chip Family.dbgu (World.boot [65] true false)
              0xFFFFEE00 115200).2 with
            rx := []
            trace := [Event.pmc_configure_peripheral 2 true,
                      Event.init 0xFFFFEE00 0x800 115200,
                      Event.get_char 0xFFFFEE00] }) :=
  (configured_io_forwards sample_chip Family.dbgu (World.boot [65] true false)
    (console_configure sample_chip Family.dbgu (World.boot [65] true false)
      0xFFFFEE00 115200).2 0xFFFFEE00 115200 (by decide) 0).2.2.2.1 65 [] (by decide)

/-- C12: on an initialized console, `console_echo` sends to the terminal exactly
CR LF for a carriage return or a line feed, exactly the erase-left sequence
`ESC [ 1 D ESC [ K` for DEL (0x7F) or backspace (0x08), and exactly the byte
itself for every other byte. -/
theorem console_echo_output (w : World) (hinit : w.console_initialized = true)
    (c : Byte) :
    output (console_echo w c).trace = output w.trace ++
      (if c.val = 13 ∨ c.val = 10 then [13, 10]
       else if c.val = 0x7F ∨ c.val = 8 then [0x1B, 0x5B, 0x31, 0x44, 0x1B, 0x5B, 0x4B]
       else [c]) := by
  unfold console_echo
  by_cases h1 : c.val = 13 ∨ c.val = 10
  · rw [if_pos h1, if_pos h1]
    simp only [World.printf, World.emit, output_append]
    rfl
  · rw [if_neg h1, if_neg h1]
    by_cases h2 : c.val = 0x7F
    · rw [if_pos h2, if_pos (Or.inl h2)]
      simp only [World.printf, World.emit, output_append]
      rfl
    · rw [if_neg h2]
      by_cases h3 : c.val = 8
      · rw [if_pos h3, if_pos (Or.inr h3)]
        simp only [World.printf, World.emit, output_append]
        rfl
      · rw [if_neg h3, if_neg (by omega)]
        simp [console_put_char, hinit, World.emit, output_append, output, Event.output]

/-- Witness for C12: the echo of a carriage return on a configured console. -/
theorem console_echo_output_witness :
    output (console_echo (World.ready 2 0xFFFFEE00 []) 13).trace = [13, 10] :=
  console_echo_output (World.ready 2 0xFFFFEE00 []) rfl 13

/-- C16: `console_enable_rx_interrupt` makes exactly three external calls, in
this order: `irq_add_handler` for the console dispatch routine under the
console identity, `irq_enable` of that identity, and the backend `enable_it`
with the console address and the receive mask of the family.
`console_disable_rx_interrupt` makes exactly the mirror image: the backend
`disable_it` with the same address and mask, `irq_disable` of the same
identity, `irq_remove_handler` of the same routine.  Neither changes anything
else.  After `console_configure` the identity is the resolved one. -/
theorem rx_interrupt_call_order (chip : Chip) (fam : Family) (w : World) :
    console_enable_rx_interrupt chip fam w =
      { w with trace := w.trace ++
          [Event.irq_add_handler w.console_id, Event.irq_enable w.console_id,
           Event.enable_it w.console_addr (console chip fam).rx_int_mask] } ∧
    console_disable_rx_interrupt chip fam w =
      { w with trace := w.trace ++
          [Event.disable_it w.console_addr (console chip fam).rx_int_mask,
           Event.irq_disable w.console_id, Event.irq_remove_handler w.console_id] } ∧
    (∀ w0 addr baudrate,
      console_configure chip fam w0 addr baudrate = (Outcome.ret (), w) →
      w.console_id = resolve_id chip fam addr ∧ w.console_addr = addr) := by
  refine ⟨?_, ?_, ?_⟩
  · simp [console_enable_rx_interrupt, World.emit]
  · simp [console_disable_rx_interrupt, World.emit]
  · intro w0 addr baudrate hcfg
    obtain ⟨_, ha, hid⟩ := console_configure_ret chip fam w0 w addr baudrate hcfg
    exact ⟨hid, ha⟩

/-- Witness for C16 on the configured debug unit of the sample chip
(identity 2, receive mask 1). -/
theorem rx_interrupt_call_order_witness :
    (console_enable_rx_interrupt sample_chip Family.dbgu
      (World.ready 2 0xFFFFEE00 [])).trace
      = [Event.irq_add_handler 2, Event.irq_enable 2, Event.enable_it 0xFFFFEE00 1] ∧
    (console_disable_rx_interrupt sample_chip Family.dbgu
      (World.ready 2 0xFFFFEE00 [])).trace
      = [Event.disable_it 0xFFFFEE00 1, Event.irq_disable 2, Event.irq_remove_handler 2] :=
  ⟨by rw [(rx_interrupt_call_order sample_chip Family.dbgu
      (World.ready 2 0xFFFFEE00 [])).1]; rfl,
   by rw [(rx_interrupt_call_order sample_chip Family.dbgu
      (World.ready 2 0xFFFFEE00 [])).2.1]; rfl⟩

/-- C17: one run of the dispatch routine `console_handler`.  It never ends in
the fatal assertion of `console_get_char`.  When `console_is_rx_ready` answers
false it returns right after that test, so without a backend `get_char` call
and without calling the callback.  When it answers true and a byte is pending,
it reads that one byte with one backend `get_char` call and then calls the
registered callback exactly once with it, or drops the byte when no callback
is registered. -/
theorem console_handler_spec (w : World) :
    (console_handler w).1 ≠ Outcome.fatal ∧
    ((console_is_rx_ready w).1 = false →
      console_handler w = (Outcome.ret (), (console_is_rx_ready w).2)) ∧
    (w.console_initialized = false → console_handler w = (Outcome.ret (), w)) ∧
    (∀ b rest, (console_is_rx_ready w).1 = true → w.rx = b :: rest →
      console_handler w = (Outcome.ret (),
        { w with
          rx := rest
          trace := w.trace ++
            if w.console_rx_handler ≠ 0 then
              [Event.rx_ready w.console_addr, Event.get_char w.console_addr,
               Event.rx_handler w.console_rx_handler b]
            else [Event.rx_ready w.console_addr, Event.get_char w.console_addr] })) := by
  cases hi : w.console_initialized
  · simp [console_handler, console_is_rx_ready, hi]
  · cases hr : w.hw_rx_ready
    · simp [console_handler, console_is_rx_ready, hi, hr]
    · cases hrx : w.rx with
      | nil => simp [console_handler, console_is_rx_ready, console_get_char, hi, hr, hrx,
          World.emit]
      | cons b rest =>
        by_cases hh : w.console_rx_handler = 0 <;>
          simp [console_handler, console_is_rx_ready, console_get_char, hi, hr, hrx,
            World.emit, hh]

/-- Witness for C17: a configured console with callback 9 registered, the
backend ready and the byte `A` pending. -/
theorem console_handler_spec_witness :
    console_handler
      (console_set_rx_handler (World.ready 2 0xFFFFEE00 [65, 66]) 9)
      = (Outcome.ret (),
          { console_set_rx_handler (World.ready 2 0xFFFFEE00 [65, 66]) 9 with
            rx := [66]
            trace := [Event.rx_ready 0xFFFFEE00, Event.get_char 0xFFFFEE00,
                      Event.rx_handler 9 65] }) :=
  (console_handler_spec
    (console_set_rx_handler (World.ready 2 0xFFFFEE00 [65, 66]) 9)).2.2.2 65 [66]
    (by decide) rfl

theorem decimal_fold_eq_mod (ds : List Byte) :
    ∀ a b : Nat, a = b % 2 ^ 32 →
      decimal_fold a ds
        = ds.foldl (fun v key => v * 10 + (key.val - 48)) b % 2 ^ 32 := by
  induction ds with
  | nil => intro a b h; simpa [decimal_fold] using h
  | cons d ds ih =>
    intro a b h
    simp only [decimal_fold, List.foldl_cons]
    exact ih _ _ (by subst h; omega)

theorem decimal_value_zeros (zs ds : List Byte) (hz : ∀ z ∈ zs, z.val = 48) :
    decimal_value (zs ++ ds) = decimal_value ds := by
  have h : zs.foldl (fun v (key : Byte) => v * 10 + (key.val - 48)) 0 = 0 := by
    induction zs with
    | nil => rfl
    | cons z zs ih =>
      simp only [List.foldl_cons, hz z (List.mem_cons_self z zs)]
      exact ih (fun x hx => hz x (List.mem_cons_of_mem z hx))
  simp only [decimal_value, List.foldl_append, h]

/-- C20: `console_get_integer` does not detect overflow.  On an initialized
console, for 1 to 255 digits followed by a carriage return or a space it
returns 1 and writes the mathematical value of the numeral reduced modulo
`2 ^ 32`; zeros in front of the numeral, within the same total length, do not
change what is written. -/
theorem console_get_integer_wraps (w : World) (hinit : w.console_initialized = true)
    (ds : List Byte) (hds : ∀ d ∈ ds, is_digit d) (hn1 : 1 ≤ ds.length)
    (t : Byte) (ht : t.val = 13 ∨ t.val = 32) (rest : List Byte) (pvalue : Nat) :
    (ds.length ≤ 255 → w.rx = ds ++ t :: rest →
      console_get_integer w pvalue =
        ⟨Outcome.ret 1, (w.after_echo (ds ++ [t]) rest).printf "\n\r" [],
          decimal_value ds % 2 ^ 32⟩) ∧
    (∀ zs : List Byte, (∀ z ∈ zs, z.val = 48) → zs.length + ds.length ≤ 255 →
      w.rx = zs ++ ds ++ t :: rest →
      (console_get_integer w pvalue).out = Outcome.ret 1 ∧
      (console_get_integer w pvalue).pvalue = decimal_value ds % 2 ^ 32) := by
  have htd : ¬ is_digit t := by
    intro h
    simp only [is_digit] at h
    omega
  have key : ∀ (xs : List Byte), (∀ d ∈ xs, is_digit d) → 1 ≤ xs.length →
      xs.length ≤ 255 → w.rx = xs ++ t :: rest →
      console_get_integer w pvalue =
        ⟨Outcome.ret 1, (w.after_echo (xs ++ [t]) rest).printf "\n\r" [],
          decimal_value xs % 2 ^ 32⟩ := by
    intro xs hxs h1 h2 hrx
    have hmod : ¬ xs.length % 256 = 0 := by omega
    have h := console_get_integer_digits_then w hinit xs hxs t htd rest hrx pvalue
    simp only [ht, hmod, if_true, if_false] at h
    rw [h, decimal_fold_eq_mod xs 0 0 rfl]
    rfl
  refine ⟨fun h2 hrx => key ds hds hn1 h2 hrx, ?_⟩
  intro zs hz hlen hrx
  have hzd : ∀ d ∈ zs ++ ds, is_digit d := by
    intro d hd
    rcases List.mem_append.mp hd with h | h
    · simp only [is_digit, hz d h]; omega
    · exact hds d h
  have h := key (zs ++ ds) hzd (by rw [List.length_append]; omega)
    (by rw [List.length_append]; omega) hrx
  rw [h, decimal_value_zeros zs ds hz]
  exact ⟨rfl, rfl⟩

/-- Witness for C20: the input `"4294967296 "` succeeds and writes 0. -/
theorem console_get_integer_wraps_witness :
    (console_get_integer
      (World.ready 2 0xFFFFEE00 [52, 50, 57, 52, 57, 54, 55, 50, 57, 54, 32]) 7).out
        = Outcome.ret 1 ∧
    (console_get_integer
      (World.ready 2 0xFFFFEE00 [52, 50, 57, 52, 57, 54, 55, 50, 57, 54, 32]) 7).pvalue
        = 0 := by
  have h := (console_get_integer_wraps
    (World.ready 2 0xFFFFEE00 [52, 50, 57, 52, 57, 54, 55, 50, 57, 54, 32]) rfl
    [52, 50, 57, 52, 57, 54, 55, 50, 57, 54] (by simp [is_digit]; decide) (by decide)
    32 (Or.inr rfl) [] 7).1 (by decide) rfl
  exact ⟨by rw [h], by rw [h]; decide⟩

/-! ## PWM channel configuration -/

theorem and_one_shiftLeft_eq_zero (n i : Nat) :
    n &&& (1 <<< i) = 0 ↔ n.testBit i = false := by
  rw [Nat.one_shiftLeft]
  constructor
  · intro h
    have h2 := congrArg (fun x => x.testBit i) h
    simpa [Nat.testBit_two_pow_self] using h2
  · intro h
    apply Nat.eq_of_testBit_eq
    intro j
    by_cases hj : i = j
    · subst hj
      simp [h]
    · simp [Nat.testBit_two_pow_of_ne hj]

/-- C18: for every register state, every channel of the block and every 16-bit
value, `pwmc_set_period` stores the value in the channel's `PWM_CPRD` when the
channel's bit in `PWM_SR` is 0 and in its `PWM_CPRDUPD` otherwise; when the
value is at most the channel's `PWM_CPRD`, `pwmc_set_duty_cycle` returns and
has stored the value in the channel's `PWM_CDTY` when the bit is 0 and in its
`PWM_CDTYUPD` otherwise.  In each call this one register is the only one
stored to: the other registers of the block and of the channel, and the other
channels, are as before. -/
theorem pwmc_set_period_duty_spec (p : Pwm) (channel : Byte)
    (hch : channel.val < p.PWM_CH_NUM.length) (value : Half) :
    pwmc_set_period p channel value =
      { p with PWM_CH_NUM := (p.PWM_CH_NUM.set channel.val
          (if p.PWM_SR.testBit channel.val = false then
            { p.channel channel.val with PWM_CPRD := value.val }
           else { p.channel channel.val with PWM_CPRDUPD := value.val })) } ∧
    (value.val ≤ (p.channel channel.val).PWM_CPRD →
      pwmc_set_duty_cycle p channel value =
        (Outcome.ret (),
          { p with PWM_CH_NUM := (p.PWM_CH_NUM.set channel.val
              (if p.PWM_SR.testBit channel.val = false then
                { p.channel channel.val with PWM_CDTY := value.val }
               else { p.channel channel.val with PWM_CDTYUPD := value.val })) })) ∧
    (∀ k, k ≠ channel.val →
      (pwmc_set_period p channel value).channel k = p.channel k ∧
      (pwmc_set_duty_cycle p channel value).2.channel k = p.channel k) ∧
    (pwmc_set_period p channel value).PWM_CH_NUM.length = p.PWM_CH_NUM.length ∧
    ((pwmc_set_period p channel value).channel channel.val =
      if p.PWM_SR.testBit channel.val = false then
        { p.channel channel.val with PWM_CPRD := value.val }
      else { p.channel channel.val with PWM_CPRDUPD := value.val }) := by
  have hb := and_one_shiftLeft_eq_zero p.PWM_SR channel.val
  refine ⟨?_, ?_, ?_, ?_, ?_⟩
  · by_cases h : p.PWM_SR.testBit channel.val = false
    · simp [pwmc_set_period, Pwm.set_channel, hb, h]
    · simp [pwmc_set_period, Pwm.set_channel, hb, h]
  · intro hd
    by_cases h : p.PWM_SR.testBit channel.val = false
    · simp [pwmc_set_duty_cycle, Pwm.set_channel, hb, h, hd]
    · simp [pwmc_set_duty_cycle, Pwm.set_channel, hb, h, hd]
  · intro k hk
    have hk2 : channel.val ≠ k := fun h => hk h.symm
    constructor
    · unfold pwmc_set_period
      split <;> simp [Pwm.set_channel, Pwm.channel, List.getD_eq_getElem?_getD, hk2]
    · unfold pwmc_set_duty_cycle
      split
      · split <;> simp [Pwm.set_channel, Pwm.channel, List.getD_eq_getElem?_getD, hk2]
      · rfl
  · unfold pwmc_set_period
    split <;> simp [Pwm.set_channel]
  · by_cases h : p.PWM_SR.testBit channel.val = false
    · simp [pwmc_set_period, Pwm.set_channel, Pwm.channel, hb, h,
        List.getD_eq_getElem?_getD, hch]
    · simp [pwmc_set_period, Pwm.set_channel, Pwm.channel, hb, h,
        List.getD_eq_getElem?_getD, hch]

/-- Witness for C18: on the sample block, the period 500 goes to `PWM_CPRD` of
the disabled channel 0 and to `PWM_CPRDUPD` of the enabled channel 1. -/
theorem pwmc_set_period_duty_spec_witness :
    (pwmc_set_period sample_pwm 0 500).PWM_CH_NUM
      = [⟨0, 0, 0, 500, 0⟩, ⟨0, 0, 0, 1000, 0⟩, ⟨0, 0, 0, 1000, 0⟩, ⟨0, 0, 0, 1000, 0⟩] ∧
    (pwmc_set_period sample_pwm 1 500).PWM_CH_NUM
      = [⟨0, 0, 0, 1000, 0⟩, ⟨0, 0, 0, 1000, 500⟩, ⟨0, 0, 0, 1000, 0⟩,
         ⟨0, 0, 0, 1000, 0⟩] :=
  ⟨by rw [(pwmc_set_period_duty_spec sample_pwm 0 (by decide) 500).1]; decide,
   by rw [(pwmc_set_period_duty_spec sample_pwm 1 (by decide) 500).1]; decide⟩

/-- C19: `pwmc_configure_channel` stores the mode in the channel's `PWM_CMR`
and does nothing else.  It makes no store to `PWM_DIS`, so the register holds
what it held before the call, unlike after `pwmc_disable_channel`, and the
status bits of `PWM_SR` are not consulted: a channel that was enabled is still
enabled when the function returns. -/
theorem pwmc_configure_channel_no_disable (p : Pwm) (channel : Byte) (mode : Nat) :
    pwmc_configure_channel p channel mode =
      { p with PWM_CH_NUM :=
          p.PWM_CH_NUM.set channel.val { p.channel channel.val with PWM_CMR := mode } } ∧
    (pwmc_configure_channel p channel mode).PWM_DIS = p.PWM_DIS ∧
    (pwmc_configure_channel p channel mode).PWM_SR = p.PWM_SR ∧
    (pwmc_disable_channel p channel).PWM_DIS = (1 <<< channel.val) % 2 ^ 32 ∧
    (pwmc_configure_channel sample_pwm 1 0).PWM_DIS = 0 ∧
    (pwmc_configure_channel sample_pwm 1 0).PWM_SR.testBit 1 = true ∧
    (pwmc_disable_channel sample_pwm 1).PWM_DIS = 2 := by
  refine ⟨rfl, rfl, rfl, rfl, rfl, ?_, ?_⟩ <;> decide

/-! ## Memory dump -/

theorem output_printf (w : World) (fmt : String) (args : List Nat) :
    output (w.printf fmt args).trace = output w.trace ++ printf_text fmt.toList args := by
  simp [World.printf, World.emit, output_append, output, Event.output]

theorem output_put_char (w : World) (hinit : w.console_initialized = true) (c : Byte) :
    output (console_put_char w c).trace = output w.trace ++ [c] := by
  simp [console_put_char, hinit, World.emit, output_append, output, Event.output]

theorem put_char_initialized (w : World) (c : Byte) :
    (console_put_char w c).console_initialized = w.console_initialized := by
  unfold console_put_char
  split <;> rfl

theorem dump_clusters_initialized (buffer : Nat → Byte) :
    ∀ (n tmp : Nat) (w : World),
      (dump_clusters buffer n tmp w).console_initialized = w.console_initialized := by
  intro n
  induction n with
  | zero => intro tmp w; rfl
  | succ n ih => intro tmp w; rw [dump_clusters, ih]; rfl

theorem dump_raw_initialized (buffer : Nat → Byte) :
    ∀ (n tmp : Nat) (w : World),
      (dump_raw buffer n tmp w).console_initialized = w.console_initialized := by
  intro n
  induction n with
  | zero => intro tmp w; rfl
  | succ n ih => intro tmp w; rw [dump_raw, ih, put_char_initialized]

theorem dump_full_lines_initialized (buffer : Nat → Byte) (address : Nat) :
    ∀ (n i : Nat) (w : World),
      (dump_full_lines buffer address n i w).console_initialized
        = w.console_initialized := by
  intro n
  induction n with
  | zero => intro i w; rfl
  | succ n ih =>
    intro i w
    simp only [dump_full_lines]
    rw [ih]
    show (dump_raw buffer 16 (i * 16) _).console_initialized = _
    rw [dump_raw_initialized, dump_clusters_initialized]
    rfl

theorem dump_last_hex_initialized (buffer : Nat → Byte) (size lls : Nat) :
    ∀ (n j : Nat) (w : World),
      (dump_last_hex buffer size lls n j w).console_initialized
        = w.console_initialized := by
  intro n
  induction n with
  | zero => intro j w; rfl
  | succ n ih =>
    intro j w
    simp only [dump_last_hex]
    rw [ih]
    split <;> split <;> rfl

/-- The text of the four clusters of a full line. -/
theorem output_dump_clusters (buffer : Nat → Byte) (off : Nat) (w : World) :
    output (dump_clusters buffer 4 off w).trace =
      output w.trace ++ (dump_cluster buffer off ++ dump_cluster buffer (off + 4) ++
        dump_cluster buffer (off + 8) ++ dump_cluster buffer (off + 12)) := by
  simp only [dump_clusters, output_printf]
  simp only [List.append_assoc, List.append_cancel_left_eq]
  rfl

/-- The text of a run of raw bytes on an initialized console. -/
theorem output_dump_raw (buffer : Nat → Byte) :
    ∀ (n tmp : Nat) (w : World), w.console_initialized = true →
      output (dump_raw buffer n tmp w).trace =
        output w.trace ++ (List.range n).map (fun p => buffer (tmp + p)) := by
  intro n
  induction n with
  | zero => intro tmp w _; simp [dump_raw]
  | succ n ih =>
    intro tmp w hinit
    rw [dump_raw, ih (tmp + 1) _ (by rw [put_char_initialized]; exact hinit),
      output_put_char w hinit, List.range_succ_eq_map]
    simp [Function.comp_def, Nat.add_assoc, Nat.add_comm 1]

/-- The text of a run of full lines on an initialized console. -/
theorem output_dump_full_lines (buffer : Nat → Byte) (address : Nat) :
    ∀ (n i : Nat) (w : World), w.console_initialized = true →
      output (dump_full_lines buffer address n i w).trace =
        output w.trace ++
          ((List.range n).map (fun k => dump_full_line buffer address (i + k))).flatten := by
  intro n
  induction n with
  | zero => intro i w _; simp [dump_full_lines]
  | succ n ih =>
    intro i w hinit
    have h2 : (dump_clusters buffer 4 (i * 16)
        (w.printf "0x%08X: " [(address + i * 16) % 2 ^ 32])).console_initialized = true := by
      rw [dump_clusters_initialized]; exact hinit
    have h3 : ((dump_raw buffer 16 (i * 16) (dump_clusters buffer 4 (i * 16)
        (w.printf "0x%08X: " [(address + i * 16) % 2 ^ 32]))).printf
          "\n\r" []).console_initialized = true := by
      show (dump_raw buffer 16 (i * 16) _).console_initialized = true
      rw [dump_raw_initialized]; exact h2
    simp only [dump_full_lines]
    rw [ih (i + 1) _ h3, output_printf, output_dump_raw buffer 16 (i * 16) _ h2,
      output_dump_clusters, output_printf, List.range_succ_eq_map n]
    have hp : printf_text "0x%08X: ".toList [(address + i * 16) % 2 ^ 32]
        = dump_address_prefix ((address + 16 * i) % 2 ^ 32) := by
      rw [Nat.mul_comm i 16]; rfl
    have ht : printf_text "\n\r".toList [] = [10, 13] := by decide
    rw [hp, ht]
    simp only [List.map_cons, List.map_map, List.flatten_cons, Function.comp_def,
      dump_full_line, Nat.add_zero, Nat.mul_comm i 16, List.append_assoc,
      Nat.add_assoc, Nat.add_comm 1]

/-- The text of the hexadecimal loop of the partial line, turn by turn. -/
theorem output_dump_last_hex (buffer : Nat → Byte) (size lls : Nat) :
    ∀ (n j : Nat) (w : World),
      output (dump_last_hex buffer size lls n j w).trace =
        output w.trace ++
          ((List.range n).map (fun q =>
            (if j + q ≠ lls ∧ (j + q) % 4 = 0 then [32] else []) ++
            (if j + q < size then hex_byte (buffer (j + q)) else [32, 32]))).flatten := by
  intro n
  induction n with
  | zero => intro j w; simp [dump_last_hex]
  | succ n ih =>
    intro j w
    have hs : printf_text " ".toList [] = [32] := by decide
    have h2 : printf_text "  ".toList [] = [32, 32] := by decide
    have hx : printf_text "%02X".toList [(buffer j).val] = hex_byte (buffer j) := by
      simp [printf_text, hex_byte]
    have key : output
        (if j < size then
          (if j ≠ lls ∧ j % 4 = 0 then w.printf " " [] else w).printf "%02X" [(buffer j).val]
         else (if j ≠ lls ∧ j % 4 = 0 then w.printf " " [] else w).printf "  " []).trace =
        output w.trace ++ ((if j ≠ lls ∧ j % 4 = 0 then [32] else []) ++
          (if j < size then hex_byte (buffer j) else [32, 32])) := by
      by_cases hsep : j ≠ lls ∧ j % 4 = 0 <;> by_cases hlt : j < size
      · rw [if_pos hsep, if_pos hlt, if_pos hsep, if_pos hlt, output_printf, output_printf,
          hs, hx, List.append_assoc]
      · rw [if_pos hsep, if_neg hlt, if_pos hsep, if_neg hlt, output_printf, output_printf,
          hs, h2, List.append_assoc]
      · rw [if_neg hsep, if_pos hlt, if_neg hsep, if_pos hlt, output_printf, hx,
          List.nil_append]
      · rw [if_neg hsep, if_neg hlt, if_neg hsep, if_neg hlt, output_printf, h2,
          List.nil_append]
    simp only [dump_last_hex]
    rw [ih (j + 1), key, List.range_succ_eq_map n]
    simp only [List.map_cons, List.map_map, List.flatten_cons, Function.comp_def,
      Nat.add_zero, List.append_assoc, Nat.add_assoc, Nat.add_comm 1, Nat.succ_eq_add_one]

/-- The text of a whole dump on an initialized console: the full lines, then,
when `size` is no multiple of 16, the last line with its hexadecimal loop
spelled out turn by turn (the number of turns is computed in 32 bits). -/
theorem output_console_dump_memory (w : World) (hinit : w.console_initialized = true)
    (buffer : Nat → Byte) (size address : Nat) :
    output (console_dump_memory w buffer size address).trace =
      output w.trace ++ dump_full_lines_text buffer address (size / 16) ++
        (if size % 16 ≠ 0 then
          dump_address_prefix ((address + (size - size % 16)) % 2 ^ 32) ++
            ((List.range ((size - size % 16 + 16) % 2 ^ 32 - (size - size % 16))).map
              (fun q =>
                (if size - size % 16 + q ≠ size - size % 16 ∧
                    (size - size % 16 + q) % 4 = 0 then [32] else []) ++
                (if size - size % 16 + q < size then
                  hex_byte (buffer (size - size % 16 + q)) else [32, 32]))).flatten ++
            [32] ++ dump_partial_raw buffer size ++ [10, 13]
         else []) := by
  have hfull := output_dump_full_lines buffer address (size / 16) 0 w hinit
  simp only [Nat.zero_add] at hfull
  have hfi : (dump_full_lines buffer address (size / 16) 0 w).console_initialized = true := by
    rw [dump_full_lines_initialized]; exact hinit
  unfold console_dump_memory
  by_cases hr : size % 16 ≠ 0
  · have hraw : size - (size - size % 16) = size % 16 := by omega
    have h4 : ((dump_last_hex buffer size (size - size % 16)
        ((size - size % 16 + 16) % 2 ^ 32 - (size - size % 16)) (size - size % 16)
        ((dump_full_lines buffer address (size / 16) 0 w).printf "0x%08X: "
          [(address + (size - size % 16)) % 2 ^ 32])).printf " " []).console_initialized
          = true := by
      show (dump_last_hex buffer size _ _ _ _).console_initialized = true
      rw [dump_last_hex_initialized]; exact hfi
    have hp : printf_text "0x%08X: ".toList [(address + (size - size % 16)) % 2 ^ 32]
        = dump_address_prefix ((address + (size - size % 16)) % 2 ^ 32) := rfl
    have hs : printf_text " ".toList [] = [32] := by decide
    have ht : printf_text "\n\r".toList [] = [10, 13] := by decide
    rw [if_pos hr, if_pos hr]
    rw [output_printf, output_dump_raw buffer _ _ _ h4, output_printf,
      output_dump_last_hex, output_printf, hfull, hp, hs, ht, hraw]
    simp only [dump_full_lines_text, dump_partial_raw, List.append_assoc]
  · rw [if_neg hr, if_neg hr, hfull]
    simp [dump_full_lines_text]

/-- C13: on an initialized console, for every buffer, size and base address,
`console_dump_memory` sends to the terminal the `size / 16` full lines, the
`k`-th being `dump_full_line`: the address prefix of `address + 16 * k` modulo
`2 ^ 32`, four clusters of eight upper-case hexadecimal digits and a space, the
16 raw bytes of the block and the terminator.  After them comes one more line,
made of an address prefix, a hexadecimal area, a space, the remaining raw
bytes and the terminator, exactly when `size` is no multiple of 16.  Nothing
is sent when `size` is 0. -/
theorem console_dump_memory_full_lines (w : World) (hinit : w.console_initialized = true)
    (buffer : Nat → Byte) (size address : Nat) :
    (∃ hexarea : List Byte,
      output (console_dump_memory w buffer size address).trace =
        output w.trace ++ dump_full_lines_text buffer address (size / 16) ++
          (if size % 16 ≠ 0 then
            dump_address_prefix ((address + (size - size % 16)) % 2 ^ 32) ++ hexarea ++
              [32] ++ dump_partial_raw buffer size ++ [10, 13]
           else [])) ∧
    (size = 0 → console_dump_memory w buffer size address = w) ∧
    (∀ k, dump_full_lines_text buffer address (k + 1) =
      dump_full_lines_text buffer address k ++ dump_full_line buffer address k) ∧
    dump_full_lines_text buffer address 0 = [] := by
  refine ⟨⟨_, output_console_dump_memory w hinit buffer size address⟩, ?_, ?_, rfl⟩
  · intro h0
    subst h0
    rfl
  · intro k
    simp [dump_full_lines_text, List.range_succ]

/-- Witness for C13: 32 bytes at address `0x1000` give exactly the two full
lines at `0x1000` and `0x1010`. -/
theorem console_dump_memory_full_lines_witness :
    output (console_dump_memory (World.ready 2 0xFFFFEE00 []) sample_buffer 32 0x1000).trace
      = dump_full_line sample_buffer 0x1000 0 ++ dump_full_line sample_buffer 0x1000 1 := by
  obtain ⟨hexarea, h⟩ :=
    (console_dump_memory_full_lines (World.ready 2 0xFFFFEE00 []) rfl sample_buffer 32
      0x1000).1
  rw [h, if_neg (by decide)]
  decide

theorem hex_byte_length (b : Byte) : (hex_byte b).length = 2 := by
  simp [hex_byte, hex_fixed]

theorem dump_partial_cell_length (buffer : Nat → Byte) (size p : Nat) :
    (dump_partial_cell buffer size p).length = 2 := by
  unfold dump_partial_cell
  split
  · exact hex_byte_length _
  · rfl

/-- C14: on an initialized console, when `size` is no multiple of 16 and
`size + 16` fits in 32 bits, the last line that `console_dump_memory` sends is
`dump_partial_line`: the address prefix of `address + (size - size % 16)`, the
`size % 16` remaining bytes as two upper-case hexadecimal digits each and two
spaces for each missing position, with one space between consecutive groups of
four positions, then one space, the remaining raw bytes and the terminator.
The hexadecimal area with its closing space is 36 characters wide, as wide as
the four clusters of a full line, so the raw bytes start in the same column. -/
theorem console_dump_memory_partial_line (w : World)
    (hinit : w.console_initialized = true) (buffer : Nat → Byte) (size address : Nat)
    (hr : size % 16 ≠ 0) (hsize : size + 16 < 2 ^ 32) :
    output (console_dump_memory w buffer size address).trace =
      output w.trace ++ dump_full_lines_text buffer address (size / 16) ++
        dump_partial_line buffer address size ∧
    (dump_partial_hex_area buffer size ++ [32]).length = 36 ∧
    (∀ off, (dump_cluster buffer off ++ dump_cluster buffer (off + 4) ++
      dump_cluster buffer (off + 8) ++ dump_cluster buffer (off + 12)).length = 36) ∧
    (dump_partial_raw buffer size).length = size % 16 := by
  refine ⟨?_, ?_, ?_, ?_⟩
  · have hcnt : (size - size % 16 + 16) % 2 ^ 32 - (size - size % 16) = 16 := by omega
    have hrange : List.range 16 = [0, 1, 2, 3, 4, 5, 6, 7, 8, 9, 10, 11, 12, 13, 14, 15] := by
      decide
    have hsep : ∀ q, (if size - size % 16 + q ≠ size - size % 16 ∧
        (size - size % 16 + q) % 4 = 0 then [(32 : Byte)] else []) =
        if q ≠ 0 ∧ q % 4 = 0 then [(32 : Byte)] else [] := by
      intro q
      have : (size - size % 16 + q ≠ size - size % 16 ∧ (size - size % 16 + q) % 4 = 0) ↔
          (q ≠ 0 ∧ q % 4 = 0) := by omega
      simp only [this]
    have hcell : ∀ q, (if size - size % 16 + q < size then
        hex_byte (buffer (size - size % 16 + q)) else [32, 32]) =
        dump_partial_cell buffer size q := by
      intro q
      have : size - size % 16 + q < size ↔ q < size % 16 := by omega
      simp only [dump_partial_cell, this]
    rw [output_console_dump_memory w hinit, if_pos hr, hcnt, hrange]
    simp only [List.map_cons, List.map_nil, List.flatten_cons, List.flatten_nil, hsep, hcell]
    simp [dump_partial_line, dump_partial_hex_area, dump_partial_group]
  · simp [dump_partial_hex_area, dump_partial_group, dump_partial_cell_length]
  · intro off
    simp [dump_cluster, hex_byte_length]
  · simp [dump_partial_raw]

/-- Witness for C14: 20 bytes at address `0x1000` give the full line at
`0x1000` and then the partial line at `0x1010`, with four bytes in hexadecimal,
36 - 8 spaces up to the raw column, and the four raw bytes. -/
theorem console_dump_memory_partial_line_witness :
    output (console_dump_memory (World.ready 2 0xFFFFEE00 []) sample_buffer 20 0x1000).trace
      = dump_full_line sample_buffer 0x1000 0 ++
        ([48, 120, 48, 48, 48, 48, 49, 48, 49, 48, 58, 32,
          53, 49, 53, 50, 53, 51, 53, 52] ++ List.replicate 28 32 ++
         [81, 82, 83, 84, 10, 13]) := by
  rw [(console_dump_memory_partial_line (World.ready 2 0xFFFFEE00 []) rfl sample_buffer 20
    0x1000 (by decide) (by decide)).1]
  decide

/-! ## Enable and disable cycle of the receive interrupt -/

theorem filter_ne_cons_self {α : Type} [DecidableEq α] (a : α) (l : List α) (h : a ∉ l) :
    (a :: l).filter (fun x => x ≠ a) = l := by
  rw [List.filter_cons]
  simp only [ne_eq, not_true_eq_false, decide_False, Bool.false_eq_true, if_false]
  exact List.filter_eq_self.mpr (fun x hx => by
    simp only [decide_eq_true_eq]; intro hxe; exact h (hxe ▸ hx))

theorem rx_cycle_trace (chip : Chip) (fam : Family) (w : World) :
    (console_disable_rx_interrupt chip fam (console_enable_rx_interrupt chip fam w)).trace
      = w.trace ++ [Event.irq_add_handler w.console_id, Event.irq_enable w.console_id,
          Event.enable_it w.console_addr (console chip fam).rx_int_mask,
          Event.disable_it w.console_addr (console chip fam).rx_int_mask,
          Event.irq_disable w.console_id, Event.irq_remove_handler w.console_id] := by
  simp [console_enable_rx_interrupt, console_disable_rx_interrupt, World.emit]

theorem irq_after_cycle (chip : Chip) (fam : Family) (w : World) (s : IrqState)
    (hreg : w.console_id ∉ s.registered) (hen : w.console_id ∉ s.enabled)
    (hmask : (w.console_addr, (console chip fam).rx_int_mask) ∉ s.unmasked) :
    s.after w (console_disable_rx_interrupt chip fam
      (console_enable_rx_interrupt chip fam w)) = s := by
  rw [IrqState.after, rx_cycle_trace, List.drop_left]
  simp only [List.foldl_cons, List.foldl_nil, IrqState.step]
  rw [filter_ne_cons_self _ _ hreg, filter_ne_cons_self _ _ hen, filter_ne_cons_self _ _ hmask]

theorem rx_cycle_console_id (chip : Chip) (fam : Family) (w : World) :
    (console_disable_rx_interrupt chip fam
      (console_enable_rx_interrupt chip fam w)).console_id = w.console_id := by
  simp [console_enable_rx_interrupt, console_disable_rx_interrupt, World.emit]

theorem rx_enable_trace (chip : Chip) (fam : Family) (w : World) :
    (console_enable_rx_interrupt chip fam w).trace
      = w.trace ++ [Event.irq_add_handler w.console_id, Event.irq_enable w.console_id,
          Event.enable_it w.console_addr (console chip fam).rx_int_mask] := by
  simp [console_enable_rx_interrupt, World.emit]

/-- C15: start from a state in which the receive interrupt of the console is
off: dispatch routine not registered, line not enabled, backend source masked.
After `console_enable_rx_interrupt` the interrupt is dispatched.  After
`console_disable_rx_interrupt` has followed, the line of the console identity
is disabled, the dispatch routine is deregistered and the backend source is
masked; the callback slot still holds the callback but is inert: a byte that
arrives afterwards stays pending and the callback is not called. -/
theorem rx_interrupt_cycle_inert (chip : Chip) (fam : Family) (w : World) (s : IrqState)
    (hreg : w.console_id ∉ s.registered) (hen : w.console_id ∉ s.enabled)
    (hmask : (w.console_addr, (console chip fam).rx_int_mask) ∉ s.unmasked) (b : Byte) :
    (s.after w (console_enable_rx_interrupt chip fam w)).dispatches chip fam w ∧
    w.console_id ∉ (s.after w (console_disable_rx_interrupt chip fam
      (console_enable_rx_interrupt chip fam w))).enabled ∧
    w.console_id ∉ (s.after w (console_disable_rx_interrupt chip fam
      (console_enable_rx_interrupt chip fam w))).registered ∧
    (w.console_addr, (console chip fam).rx_int_mask) ∉
      (s.after w (console_disable_rx_interrupt chip fam
        (console_enable_rx_interrupt chip fam w))).unmasked ∧
    (console_disable_rx_interrupt chip fam
      (console_enable_rx_interrupt chip fam w)).console_rx_handler = w.console_rx_handler ∧
    irq_receive
      (s.after w (console_disable_rx_interrupt chip fam
        (console_enable_rx_interrupt chip fam w)))
      chip fam
      (console_disable_rx_interrupt chip fam (console_enable_rx_interrupt chip fam w)) b
      = (Outcome.ret (),
          { console_disable_rx_interrupt chip fam (console_enable_rx_interrupt chip fam w) with
            rx := w.rx ++ [b], hw_rx_ready := true }) := by
  have h2 := irq_after_cycle chip fam w s hreg hen hmask
  have hnd : ¬ s.dispatches chip fam (console_disable_rx_interrupt chip fam
      (console_enable_rx_interrupt chip fam w)) := by
    intro h
    unfold IrqState.dispatches at h
    rw [rx_cycle_console_id] at h
    exact hen h.2.1
  refine ⟨?_, ?_, ?_, ?_, ?_, ?_⟩
  · rw [IrqState.after, rx_enable_trace, List.drop_left]
    simp [IrqState.step, IrqState.dispatches]
  · rw [h2]; exact hen
  · rw [h2]; exact hreg
  · rw [h2]; exact hmask
  · simp [console_enable_rx_interrupt, console_disable_rx_interrupt, World.emit]
  · rw [h2, irq_receive, if_neg hnd]
    simp [console_enable_rx_interrupt, console_disable_rx_interrupt, World.emit]

/-- Witness for C15: the configured debug unit of the sample chip with callback
9 registered, starting from the idle interrupt state; the byte `A` that
arrives after the cycle stays pending and no call is made. -/
theorem rx_interrupt_cycle_inert_witness :
    (irq_receive
      (IrqState.idle.after (console_set_rx_handler (World.ready 2 0xFFFFEE00 []) 9)
        (console_disable_rx_interrupt sample_chip Family.dbgu
          (console_enable_rx_interrupt sample_chip Family.dbgu
            (console_set_rx_handler (World.ready 2 0xFFFFEE00 []) 9))))
      sample_chip Family.dbgu
      (console_disable_rx_interrupt sample_chip Family.dbgu
        (console_enable_rx_interrupt sample_chip Family.dbgu
          (console_set_rx_handler (World.ready 2 0xFFFFEE00 []) 9))) 65).2.rx = [65] := by
  rw [(rx_interrupt_cycle_inert sample_chip Family.dbgu
    (console_set_rx_handler (World.ready 2 0xFFFFEE00 []) 9) IrqState.idle
    (by decide) (by decide) (by decide) 65).2.2.2.2.2]
  rfl

end Softpack
